import Mathlib

set_option maxRecDepth 10000

/-
Verification of the two text-patching scripts of this repository
(`add_export_service.py` and `integrate_xcconfig.py`) against the
design specification of the project-descriptor patcher.

The document is modelled as a `List Char`.  Python string primitives used
by the scripts are given executable shallow embeddings:

* `replaceAll`      models `str.replace` (all non-overlapping occurrences,
                    scanned left to right);
* `pyIn`            models the `in` substring test;
* `searchSection`   models `re.search(begin + non-greedy-dotall + end)`;
* `searchBlock`     models `re.search(hdr [^x]+ mid [^y]+)` with Python's
                    greedy backtracking (the last viable split is taken);
* `subCfg`          models `re.sub(lit1 \s* lit2, group + ins)` (global);
* `subRoot3`        models `re.sub(lit1 \s* lit2 \s* lit3 \s*, group + ins)`.

Both scripts are then assembled from these primitives exactly in source
order.  `uuid.uuid4().hex[:24].upper()` is nondeterministic at runtime, so
the two generated tokens are parameters of the model; the deterministic
part of the generator (`hex[:24].upper()`) is `mkToken`.
-/

/-- Python `\s` for `str` patterns (Unicode mode, the scripts' default):
the six ASCII blanks, the information separators `\x1c`–`\x1f`, next
line, no-break space and the Unicode space characters. -/
def pyIsSpace (c : Char) : Bool :=
  c = ' ' || c = '\t' || c = '\n' || c = '\x0d' || c = '\x0c' || c = '\x0b' ||
  c = '\x1c' || c = '\x1d' || c = '\x1e' || c = '\x1f' || c = '\x85' || c = '\xa0' ||
  c = '\u1680' || ('\u2000' ≤ c && c ≤ '\u200a') ||
  c = '\u2028' || c = '\u2029' || c = '\u202f' || c = '\u205f' || c = '\u3000'

/-- Model of Python `str.replace(old, new)`: every non-overlapping
occurrence of `old`, scanning left to right, is replaced by `new`.
(The scripts never call it with an empty `old`; for `old = []` this
model returns the input unchanged.) -/
def replaceAll (old new : List Char) (s : List Char) : List Char :=
  match old, s with
  | [], _ => s
  | _ :: _, [] => []
  | o :: os, c :: rest =>
    if (o :: os).isPrefixOf (c :: rest) then
      new ++ replaceAll (o :: os) new (rest.drop os.length)
    else
      c :: replaceAll (o :: os) new rest
termination_by s.length
decreasing_by
  all_goals simp [List.length_drop]
  all_goals omega

/-- Model of Python `pat in s` (substring containment). -/
def pyIn (pat : List Char) : List Char → Bool
  | [] => pat.isPrefixOf []
  | c :: rest => pat.isPrefixOf (c :: rest) || pyIn pat rest

/-- Number of positions of `s` at which `pat` occurs (all start positions,
`0` through `s.length`; used only in proofs, not by the model). -/
def countOcc (pat : List Char) : List Char → Nat
  | [] => if pat.isPrefixOf [] then 1 else 0
  | c :: rest => (if pat.isPrefixOf (c :: rest) then 1 else 0) + countOcc pat rest

/-- The text strictly before the first occurrence of `pat`, if `pat`
occurs at all. -/
def prefixBefore (pat : List Char) : List Char → Option (List Char)
  | [] => if pat.isPrefixOf [] then some [] else none
  | c :: rest =>
    if pat.isPrefixOf (c :: rest) then some []
    else (prefixBefore pat rest).map (fun x => c :: x)

/-- Model of `re.search(beginL + '(.*?)' + endL, s, re.DOTALL)`, returning
`group(1)`: the leftmost position where `beginL` matches and an `endL`
follows; the group runs to the first such `endL`. -/
def searchSection (beginL endL : List Char) : List Char → Option (List Char)
  | [] => none
  | c :: rest =>
    if beginL.isPrefixOf (c :: rest) then
      match prefixBefore endL ((c :: rest).drop beginL.length) with
      | some g => some g
      | none => searchSection beginL endL rest
    else searchSection beginL endL rest

/-- The character class `[^x]` of the block patterns. -/
def notChar (x c : Char) : Bool := c ≠ x

/-- Matching condition for one candidate length `k` of the first
character class of the block pattern: `mid` must follow the `k` retained
characters and at least one character not equal to `ex2` must follow
`mid` (Python `[^ex2]+` needs a non-empty match). -/
def blockCond (mid t : List Char) (ex2 : Char) (k : Nat) : Bool :=
  mid.isPrefixOf (t.drop k) &&
    (match t.drop (k + mid.length) with
     | [] => false
     | d :: _ => notChar ex2 d)

/-- Greedy backtracking for `[^ex1]+`: try the longest candidate first
(Python's greedy `+`), i.e. the largest `k ≥ 1` satisfying `blockCond`. -/
def bestK (mid t : List Char) (ex2 : Char) : Nat → Option Nat
  | 0 => none
  | k + 1 => if blockCond mid t ex2 (k + 1) then some (k + 1) else bestK mid t ex2 k

/-- Attempt the block pattern `hdr [^ex1]+ mid [^ex2]+` anchored at the
start of `s`; on success return the matched text (the pattern's single
group is the whole match). -/
def tryBlock (hdr mid : List Char) (ex1 ex2 : Char) (s : List Char) : Option (List Char) :=
  if hdr.isPrefixOf s then
    let t := s.drop hdr.length
    match bestK mid t ex2 ((t.takeWhile (notChar ex1)).length) with
    | some k =>
      some (hdr ++ t.take k ++ mid ++ (t.drop (k + mid.length)).takeWhile (notChar ex2))
    | none => none
  else none

/-- Model of `re.search` for the block patterns of `add_export_service.py`
(`(/\* Services \*/ = \{[^}]+children = \([^)]+)` and the analogous
`Sources` pattern): leftmost start position wins. -/
def searchBlock (hdr mid : List Char) (ex1 ex2 : Char) : List Char → Option (List Char)
  | [] => none
  | c :: rest =>
    match tryBlock hdr mid ex1 ex2 (c :: rest) with
    | some g => some g
    | none => searchBlock hdr mid ex1 ex2 rest

/-- Model of `re.sub(r'(lit1\s*lit2)', r'\1' + ins, s)` (global, left to
right, continuing after each match).  `lit2` of both uses starts with a
non-space character, so the greedy `\s*` is forced to the maximal
whitespace run. -/
def subCfg (lit1 lit2 ins : List Char) (s : List Char) : List Char :=
  match lit1, s with
  | [], _ => s
  | _ :: _, [] => []
  | l :: ls, c :: rest =>
    if (l :: ls).isPrefixOf (c :: rest) then
      let t := rest.drop ls.length
      let w := t.takeWhile pyIsSpace
      let u := t.drop w.length
      if lit2.isPrefixOf u then
        (l :: ls) ++ w ++ lit2 ++ ins ++ subCfg (l :: ls) lit2 ins (u.drop lit2.length)
      else
        c :: subCfg (l :: ls) lit2 ins rest
    else
      c :: subCfg (l :: ls) lit2 ins rest
termination_by s.length
decreasing_by
  all_goals simp [List.length_drop]
  all_goals omega

/-- Model of `re.sub(r'(lit1\s*lit2\s*lit3\s*)', r'\1' + ins, s)` used for
the root-group children substitution of `integrate_xcconfig.py`. -/
def subRoot3 (lit1 lit2 lit3 ins : List Char) (s : List Char) : List Char :=
  match lit1, s with
  | [], _ => s
  | _ :: _, [] => []
  | l :: ls, c :: rest =>
    if (l :: ls).isPrefixOf (c :: rest) then
      let t := rest.drop ls.length
      let w1 := t.takeWhile pyIsSpace
      let u1 := t.drop w1.length
      if lit2.isPrefixOf u1 then
        let t2 := u1.drop lit2.length
        let w2 := t2.takeWhile pyIsSpace
        let u2 := t2.drop w2.length
        if lit3.isPrefixOf u2 then
          let t3 := u2.drop lit3.length
          let w3 := t3.takeWhile pyIsSpace
          (l :: ls) ++ w1 ++ lit2 ++ w2 ++ lit3 ++ w3 ++ ins ++
            subRoot3 (l :: ls) lit2 lit3 ins (t3.drop w3.length)
        else
          c :: subRoot3 (l :: ls) lit2 lit3 ins rest
      else
        c :: subRoot3 (l :: ls) lit2 lit3 ins rest
    else
      c :: subRoot3 (l :: ls) lit2 lit3 ins rest
termination_by s.length
decreasing_by
  all_goals simp [List.length_drop]
  all_goals omega

/-- Python `str.upper` on one character (ASCII range). -/
def pyUpperChar (c : Char) : Char :=
  if 'a' ≤ c && c ≤ 'z' then Char.ofNat (c.toNat - 32) else c

/-- The deterministic part of the identifier generator of
`add_export_service.py`: `uuid.uuid4().hex[:24].upper()`, applied to the
32-character lowercase-hex rendering produced by `uuid4`. -/
def mkToken (hex : List Char) : List Char :=
  (hex.take 24).map pyUpperChar

/-- The characters `uuid4().hex` can produce. -/
def lowHexChars : List Char := "0123456789abcdef".data

/-- Uppercase-hex alphabet of the descriptor format's tokens. -/
def upHexChars : List Char := "0123456789ABCDEF".data

/-- A possible value of `uuid.uuid4().hex`: 32 lowercase-hex characters
with the UUID version nibble `'4'` at index 12 and the variant nibble in
`8`–`b` at index 16, the two positions `uuid4` fixes. -/
def hexOk (h : List Char) : Bool :=
  h.length == 32 && h.all (fun c => c ∈ lowHexChars) &&
    (h.drop 12).headD 'x' == '4' &&
    (let v := (h.drop 16).headD 'x'
     v == '8' || v == '9' || v == 'a' || v == 'b')

/- ------------------------------------------------------------------ -/
/- The two scripts, assembled in source order.                         -/
/- ------------------------------------------------------------------ -/

def svcHdr : List Char := "/* Services */ = \x7b".data

def chLit : List Char := "children = (".data

def srcHdr : List Char := "/* Sources */ = \x7b".data

def fiLit : List Char := "files = (".data

def bfMark : List Char := "/* Begin PBXBuildFile section */".data

def frBeginMark : List Char := "/* Begin PBXFileReference section */".data

def frEndMark : List Char := "/* End PBXFileReference section */".data

def grpBeginMark : List Char := "/* Begin PBXGroup section */".data

def grpEndMark : List Char := "/* End PBXGroup section */".data

/-- The child line added to the `Services` group's `children` list. -/
def kidIns (fr : List Char) : List Char :=
  "\n\t\t\t\t".data ++ fr ++ " /* ExportService.swift */,".data

/-- The `PBXBuildFile` entry added after the section-open comment. -/
def bfEntry (bf fr : List Char) : List Char :=
  "\n\t\t".data ++ bf ++
    " /* ExportService.swift in Sources */ = \x7bisa = PBXBuildFile; fileRef = ".data ++
    fr ++ " /* ExportService.swift */; \x7d;".data

/-- The `PBXFileReference` entry added after the section-open comment. -/
def frEntry (fr : List Char) : List Char :=
  "\n\t\t".data ++ fr ++
    " /* ExportService.swift */ = \x7bisa = PBXFileReference; lastKnownFileType = sourcecode.swift; path = ExportService.swift; sourceTree = \"<group>\"; \x7d;".data

/-- The line added to the `Sources` build phase's `files` list. -/
def srcIns (bf : List Char) : List Char :=
  "\n\t\t\t\t".data ++ bf ++ " /* ExportService.swift in Sources */,".data

/-- `add_export_service.py`, directive 1: find the `Services` group and
append the file-reference line to its `children`; `none` models the
`exit(1)` path taken when the anchor is missing. -/
def aesStep1 (fr : List Char) (c : List Char) : Option (List Char) :=
  match searchBlock svcHdr chLit '\x7d' ')' c with
  | none => none
  | some g => some (replaceAll g (g ++ kidIns fr) c)

/-- Directive 2: the `PBXBuildFile` entry (skipped when the section
marker is absent). -/
def aesStep2 (bf fr : List Char) (c : List Char) : List Char :=
  if pyIn bfMark c then replaceAll bfMark (bfMark ++ bfEntry bf fr) c else c

/-- Directive 3: the `PBXFileReference` entry (skipped when the section
marker is absent). -/
def aesStep3 (fr : List Char) (c : List Char) : List Char :=
  if pyIn frBeginMark c then replaceAll frBeginMark (frBeginMark ++ frEntry fr) c else c

/-- Directive 4: the `Sources` build-phase entry (skipped when the
anchor pattern does not match). -/
def aesStep4 (bf : List Char) (c : List Char) : List Char :=
  match searchBlock srcHdr fiLit '\x7d' ')' c with
  | none => c
  | some g => replaceAll g (g ++ srcIns bf) c

/-- Outcome of one run of a script: the process exit code and the
document written back, if any write happened. -/
structure RunResult where
  exitCode : Nat
  written : Option (List Char)
deriving DecidableEq

/-- `add_export_service.py`: read, apply the four directives in order,
write once at the end; exit 1 without writing when the `Services`
anchor is missing.  `fr` and `bf` are the two freshly sampled tokens. -/
def add_export_service (fr bf c : List Char) : RunResult :=
  match aesStep1 fr c with
  | none => ⟨1, none⟩
  | some c1 => ⟨0, some (aesStep4 bf (aesStep3 fr (aesStep2 bf fr c1)))⟩

def dbgXcName : List Char := "Debug.xcconfig".data

def cfgGroupId : List Char := "A10000F3000".data

/-- The two `PBXFileReference` lines inserted by step 1 of
`integrate_xcconfig.py`. -/
def newRefs : List Char :=
  "\t\tA10000F1000 /* Debug.xcconfig */ = \x7bisa = PBXFileReference; lastKnownFileType = text.xcconfig; path = Debug.xcconfig; sourceTree = \"<group>\"; \x7d;\n".data ++
  "\t\tA10000F2000 /* Release.xcconfig */ = \x7bisa = PBXFileReference; lastKnownFileType = text.xcconfig; path = Release.xcconfig; sourceTree = \"<group>\"; \x7d;\n".data

/-- The `Config` group block inserted by step 2. -/
def cfgGroupTxt : List Char :=
  "\t\tA10000F3000 /* Config */ = \x7b\n\t\t\tisa = PBXGroup;\n\t\t\tchildren = (\n\t\t\t\tA10000F1000 /* Debug.xcconfig */,\n\t\t\t\tA10000F2000 /* Release.xcconfig */,\n\t\t\t);\n\t\t\tpath = Config;\n\t\t\tsourceTree = \"<group>\";\n\t\t\x7d;\n".data

def rootLit1 : List Char := "A10000A0000 = \x7b".data

def rootLit2 : List Char := "isa = PBXGroup;".data

def rootIns : List Char := "A10000F3000 /* Config */,\n\t\t\t\t".data

def dbgCfgLit : List Char := "A1000180000 /* Debug */ = \x7b".data

def relCfgLit : List Char := "A1000190000 /* Release */ = \x7b".data

def xcIsaLit : List Char := "isa = XCBuildConfiguration;".data

def insD : List Char := "\n\t\t\tbaseConfigurationReference = A10000F1000 /* Debug.xcconfig */;".data

def insR : List Char := "\n\t\t\tbaseConfigurationReference = A10000F2000 /* Release.xcconfig */;".data

/-- `integrate_xcconfig.py`, step 1: add the two xcconfig file
references before the section-end marker, guarded by the
`Debug.xcconfig` idempotence check. -/
def intStep1 (c : List Char) : List Char :=
  match searchSection frBeginMark frEndMark c with
  | some refs =>
    if pyIn dbgXcName refs then c
    else replaceAll frEndMark (newRefs ++ frEndMark) c
  | none => c

/-- Step 2: add the `Config` group before the group-section end and
splice it into the root group's children, guarded by the
`A10000F3000` idempotence check. -/
def intStep2 (c : List Char) : List Char :=
  match searchSection grpBeginMark grpEndMark c with
  | some groups =>
    if pyIn cfgGroupId groups then c
    else subRoot3 rootLit1 rootLit2 chLit rootIns
      (replaceAll grpEndMark (cfgGroupTxt ++ grpEndMark) c)
  | none => c

/-- Step 3a: base-configuration reference of the Debug block. -/
def intStep3d (c : List Char) : List Char :=
  subCfg dbgCfgLit xcIsaLit insD c

/-- Step 3b: base-configuration reference of the Release block. -/
def intStep3r (c : List Char) : List Char :=
  subCfg relCfgLit xcIsaLit insR c

/-- `integrate_xcconfig.py`: the whole in-memory transformation, in
source order; the result is written back unconditionally, once. -/
def integrate_xcconfig (c : List Char) : List Char :=
  intStep3r (intStep3d (intStep2 (intStep1 c)))

/-- File-system events of one script run (the scripts also print to the
console; only storage matters to the claims). -/
inductive FsEvent
  | readF (c : List Char)
  | writeF (c : List Char)
deriving DecidableEq

def FsEvent.isWrite : FsEvent → Bool
  | .writeF _ => true
  | .readF _ => false

/-- The storage trace of `add_export_service.py`: one read at the start;
on the fatal-anchor path the process exits before any write; otherwise a
single write, of the fully patched document, at the end. -/
def aesTrace (fr bf c : List Char) : List FsEvent :=
  match aesStep1 fr c with
  | none => [.readF c]
  | some c1 => [.readF c, .writeF (aesStep4 bf (aesStep3 fr (aesStep2 bf fr c1)))]

/-- The storage trace of `integrate_xcconfig.py`: one read, one final
write of the fully patched document. -/
def intTrace (c : List Char) : List FsEvent :=
  [.readF c, .writeF (integrate_xcconfig c)]

/-- The console output of one run of `add_export_service.py`, line by
line: the `ERROR` line on the fatal-anchor path, and otherwise the
three final report lines.  No other branch of the script prints; in
particular the skipped-secondary-anchor branches are silent. -/
def aesStdout (fr bf c : List Char) : List (List Char) :=
  match aesStep1 fr c with
  | none => ["ERROR: Could not find Services group".data]
  | some _ =>
    ["Added ExportService.swift to Xcode project".data,
     "File Reference UUID: ".data ++ fr,
     "Build File UUID: ".data ++ bf]

/-- The console output of one run of `integrate_xcconfig.py` on the
document `c`: the five report lines printed at the end of `main`.  No
branch of `main` prints anything else, so the output does not depend on
the document at all — in particular not on whether a section anchor was
missing or an idempotence guard fired. -/
def intStdout (c : List Char) : List (List Char) :=
  let _ := c
  ["Successfully integrated xcconfig files into Xcode project!".data,
     "- Added A10000F1000 for Debug.xcconfig".data,
     "- Added A10000F2000 for Release.xcconfig".data,
     "- Created Config group A10000F3000".data,
     "- Assigned xcconfig files to Debug and Release configurations".data]

/- ------------------------------------------------------------------ -/
/- Toolkit: prefixes, occurrences, occurrence counting.                -/
/- ------------------------------------------------------------------ -/

theorem pfx_iff_take (p s : List Char) :
    p.isPrefixOf s = true ↔ s.take p.length = p := by
  induction p generalizing s with
  | nil => simp [List.isPrefixOf]
  | cons a as ih =>
    cases s with
    | nil => simp [List.isPrefixOf]
    | cons b bs =>
      simp only [List.isPrefixOf, Bool.and_eq_true, beq_iff_eq, List.length_cons,
        List.take_succ_cons, List.cons.injEq, ih]
      constructor
      · rintro ⟨h1, h2⟩; exact ⟨h1.symm, h2⟩
      · rintro ⟨h1, h2⟩; exact ⟨h1.symm, h2⟩

theorem pfx_append_self (p r : List Char) : p.isPrefixOf (p ++ r) = true :=
  (pfx_iff_take p (p ++ r)).mpr (List.take_left p r)

theorem pfx_length_le {p s : List Char} (h : p.isPrefixOf s = true) :
    p.length ≤ s.length := by
  have h1 := (pfx_iff_take p s).mp h
  have h2 : (s.take p.length).length = p.length := by rw [h1]
  simp only [List.length_take] at h2
  omega

theorem pfx_to_eq {p s : List Char} (h : p.isPrefixOf s = true) :
    s = p ++ s.drop p.length := by
  conv_lhs => rw [← List.take_append_drop p.length s]
  rw [(pfx_iff_take p s).mp h]

theorem pfx_within {p X Y : List Char} (h : p.isPrefixOf (X ++ Y) = true)
    (hl : p.length ≤ X.length) : p.isPrefixOf X = true := by
  have h1 := (pfx_iff_take p (X ++ Y)).mp h
  rw [List.take_append_of_le_length hl] at h1
  exact (pfx_iff_take p X).mpr h1

theorem pfx_extend {p X : List Char} (Y : List Char) (h : p.isPrefixOf X = true) :
    p.isPrefixOf (X ++ Y) = true := by
  have h1 := (pfx_iff_take p X).mp h
  have hl := pfx_length_le h
  exact (pfx_iff_take p (X ++ Y)).mpr (by rw [List.take_append_of_le_length hl, h1])

theorem dropApp (X Y : List Char) (n : Nat) :
    (X ++ Y).drop (X.length + n) = Y.drop n := by
  induction X with
  | nil => simp
  | cons a xs ih => simp [Nat.succ_add, ih]

theorem twAppendAll {p : Char → Bool} {X : List Char} (Y : List Char)
    (h : ∀ c ∈ X, p c = true) :
    (X ++ Y).takeWhile p = X ++ Y.takeWhile p := by
  induction X with
  | nil => simp
  | cons a xs ih =>
    have hx : ∀ c ∈ xs, p c = true := fun c hc => h c (List.mem_cons_of_mem a hc)
    have ha : p a = true := h a (List.mem_cons_self a xs)
    rw [List.cons_append, List.takeWhile_cons, ha]
    simp only [if_true, List.cons_append]
    rw [ih hx]

theorem twConsFalse {p : Char → Bool} {c : Char} (r : List Char) (h : p c = false) :
    (c :: r).takeWhile p = [] := by
  simp [List.takeWhile_cons, h]

theorem twAppendDrop (p : Char → Bool) (X : List Char) :
    X.takeWhile p ++ X.drop (X.takeWhile p).length = X := by
  induction X with
  | nil => simp
  | cons a xs ih =>
    cases hp : p a with
    | true => simpa [List.takeWhile_cons, hp] using ih
    | false => simp [List.takeWhile_cons, hp]

theorem countOcc_pos {pat s : List Char} {p : Nat}
    (h : pat.isPrefixOf (s.drop p) = true) : 0 < countOcc pat s := by
  induction s generalizing p with
  | nil =>
    simp only [List.drop_nil] at h
    simp [countOcc, h]
  | cons c r ih =>
    cases p with
    | zero =>
      simp only [List.drop_zero] at h
      simp [countOcc, h]
    | succ q =>
      have := ih (p := q) (by simpa using h)
      simp only [countOcc]
      omega

theorem countOcc_two {pat s : List Char} {p q : Nat} (hne : pat ≠ [])
    (hpq : p < q) (hp : pat.isPrefixOf (s.drop p) = true)
    (hq : pat.isPrefixOf (s.drop q) = true) : 2 ≤ countOcc pat s := by
  induction s generalizing p q with
  | nil =>
    exfalso
    simp only [List.drop_nil] at hq
    cases pat with
    | nil => exact hne rfl
    | cons a as => simp [List.isPrefixOf] at hq
  | cons c r ih =>
    cases q with
    | zero => omega
    | succ q' =>
      cases p with
      | zero =>
        simp only [List.drop_zero] at hp
        have h1 : 0 < countOcc pat r := countOcc_pos (p := q') (by simpa using hq)
        simp only [countOcc, hp, if_true]
        omega
      | succ p' =>
        have h1 := ih (p := p') (q := q') (by omega) (by simpa using hp) (by simpa using hq)
        simp only [countOcc]
        omega

theorem countOcc_ge_right (pat X Y : List Char) :
    countOcc pat Y ≤ countOcc pat (X ++ Y) := by
  induction X with
  | nil => simp
  | cons a xs ih =>
    simp only [List.cons_append, countOcc, List.append_eq]
    omega

theorem countOcc_unique {pat s : List Char} {i : Nat} (hne : pat ≠ [])
    (h1 : countOcc pat s = 1) (hi : pat.isPrefixOf (s.drop i) = true) :
    ∀ j, j ≠ i → pat.isPrefixOf (s.drop j) = false := by
  intro j hj
  cases hc : pat.isPrefixOf (s.drop j) with
  | false => rfl
  | true =>
    exfalso
    rcases Nat.lt_or_ge j i with hlt | hge
    · have := countOcc_two hne hlt hc hi; omega
    · have hlt : i < j := by omega
      have := countOcc_two hne hlt hi hc; omega

theorem pyIn_iff (pat s : List Char) : pyIn pat s = true ↔ 0 < countOcc pat s := by
  induction s with
  | nil =>
    cases h : pat.isPrefixOf ([] : List Char) <;> simp [pyIn, countOcc, h]
  | cons c r ih =>
    cases h : pat.isPrefixOf (c :: r) with
    | true => simp [pyIn, countOcc, h]
    | false => simp [pyIn, countOcc, h, ih]

theorem occAt_cat {pat Y : List Char} {q : Nat} (X : List Char)
    (h : pat.isPrefixOf (Y.drop q) = true) :
    pat.isPrefixOf ((X ++ Y).drop (X.length + q)) = true := by
  rw [dropApp]; exact h

theorem pyIn_mid (pat X Y : List Char) : pyIn pat (X ++ pat ++ Y) = true := by
  rw [pyIn_iff]
  refine countOcc_pos (p := X.length) ?_
  rw [List.append_assoc, List.drop_left]
  exact pfx_append_self pat Y

/- ------------------------------------------------------------------ -/
/- Properties of replaceAll.                                           -/
/- ------------------------------------------------------------------ -/

theorem RA_unfold_nil (new s : List Char) : replaceAll [] new s = s := by
  simp [replaceAll]

theorem RA_unfold_empty (o : Char) (os new : List Char) :
    replaceAll (o :: os) new [] = [] := by
  simp [replaceAll]

theorem RA_unfold_pos {o : Char} {os : List Char} (new : List Char) {c : Char}
    {rest : List Char} (h : (o :: os).isPrefixOf (c :: rest) = true) :
    replaceAll (o :: os) new (c :: rest) =
      new ++ replaceAll (o :: os) new (rest.drop os.length) := by
  simp [replaceAll, h]

theorem RA_unfold_neg {o : Char} {os : List Char} (new : List Char) {c : Char}
    {rest : List Char} (h : (o :: os).isPrefixOf (c :: rest) = false) :
    replaceAll (o :: os) new (c :: rest) = c :: replaceAll (o :: os) new rest := by
  simp [replaceAll, h]

theorem RA_self {old new : List Char} (s : List Char) (h : countOcc old s = 0) :
    replaceAll old new s = s := by
  cases old with
  | nil => exact RA_unfold_nil new s
  | cons o os =>
    induction s with
    | nil => exact RA_unfold_empty o os new
    | cons c rest ih =>
      have hp : (o :: os).isPrefixOf (c :: rest) = false := by
        cases hc : (o :: os).isPrefixOf (c :: rest) with
        | false => rfl
        | true => exfalso; simp [countOcc, hc] at h
      have htail : countOcc (o :: os) rest = 0 := by
        simp only [countOcc, hp, Bool.false_eq_true, if_false] at h
        omega
      rw [RA_unfold_neg new hp, ih htail]

theorem RA_single {old : List Char} (new A B : List Char) (hne : old ≠ [])
    (h1 : countOcc old (A ++ old ++ B) = 1) :
    replaceAll old new (A ++ old ++ B) = A ++ new ++ B := by
  obtain ⟨o, os, rfl⟩ := List.exists_cons_of_ne_nil hne
  induction A with
  | nil =>
    simp only [List.nil_append] at h1 ⊢
    have hpfx : (o :: os).isPrefixOf (o :: (os ++ B)) = true := pfx_append_self (o :: os) B
    show replaceAll (o :: os) new (o :: (os ++ B)) = new ++ B
    rw [RA_unfold_pos new hpfx, List.drop_left]
    have htail : countOcc (o :: os) B = 0 := by
      simp only [countOcc, hpfx, if_pos, List.append_eq] at h1
      have := countOcc_ge_right (o :: os) os B
      omega
    rw [RA_self B htail]
  | cons a A' ih =>
    simp only [List.cons_append] at h1 ⊢
    have hocc : (o :: os).isPrefixOf ((a :: (A' ++ (o :: os) ++ B)).drop (A'.length + 1)) = true := by
      simp only [List.drop_succ_cons]
      rw [List.append_assoc, List.drop_left]
      exact pfx_append_self (o :: os) B
    have hhead : (o :: os).isPrefixOf (a :: (A' ++ (o :: os) ++ B)) = false := by
      cases hc : (o :: os).isPrefixOf (a :: (A' ++ (o :: os) ++ B)) with
      | false => rfl
      | true =>
        exfalso
        have h2 := countOcc_two (s := a :: (A' ++ (o :: os) ++ B)) (p := 0)
          (q := A'.length + 1) (by simp) (by omega) (by simpa using hc) hocc
        omega
    rw [RA_unfold_neg new hhead]
    have htail : countOcc (o :: os) (A' ++ (o :: os) ++ B) = 1 := by
      simp only [countOcc, hhead, Bool.false_eq_true, if_false] at h1
      omega
    rw [ih htail]

theorem RA_sublist (old new s : List Char) (hsub : old.Sublist new) :
    s.Sublist (replaceAll old new s) := by
  induction old, new, s using replaceAll.induct with
  | case1 new s =>
    rw [RA_unfold_nil]
  | case2 new o os =>
    rw [RA_unfold_empty]
  | case3 new o os c rest hp ih =>
    rw [RA_unfold_pos new hp]
    have hs : c :: rest = (o :: os) ++ rest.drop os.length := by
      have h0 := pfx_to_eq hp
      simpa using h0
    rw [hs]
    exact hsub.append (ih hsub)
  | case4 new o os c rest hp ih =>
    rw [RA_unfold_neg new (eq_false_of_ne_true hp)]
    exact List.Sublist.cons₂ c (ih hsub)

theorem RA_strict (old new s : List Char) :
    old ≠ [] → old.Sublist new → old.length < new.length →
    0 < countOcc old s → s.length < (replaceAll old new s).length := by
  induction old, new, s using replaceAll.induct with
  | case1 new s => intro h _ _ _; exact absurd rfl h
  | case2 new o os =>
    intro _ _ _ hocc
    exfalso
    simp [countOcc, List.isPrefixOf] at hocc
  | case3 new o os c rest hp ih =>
    intro hne hsub hlen hocc
    rw [RA_unfold_pos new hp]
    have hD := (RA_sublist (o :: os) new (rest.drop os.length) hsub).length_le
    have hr : os.length + 1 ≤ rest.length + 1 := by
      have := pfx_length_le hp; simpa using this
    simp only [List.length_append, List.length_drop, List.length_cons] at *
    omega
  | case4 new o os c rest hp ih =>
    intro hne hsub hlen hocc
    have hfalse : (o :: os).isPrefixOf (c :: rest) = false := eq_false_of_ne_true hp
    rw [RA_unfold_neg new hfalse]
    have htail : 0 < countOcc (o :: os) rest := by
      simp only [countOcc, hfalse, Bool.false_eq_true, if_false] at hocc
      omega
    have := ih hne hsub hlen htail
    simp only [List.length_cons]
    omega

/-- Modelled from the spec (the Splicer of section 4.3): produce a new
document by inserting the rendered template text immediately after each
occurrence of the anchor text, preserving all other document bytes
verbatim. -/
def insertAfterEach (anchor ins : List Char) (s : List Char) : List Char :=
  match anchor, s with
  | [], _ => s
  | _ :: _, [] => []
  | a :: an, c :: rest =>
    if (a :: an).isPrefixOf (c :: rest) then
      (a :: an) ++ ins ++ insertAfterEach (a :: an) ins (rest.drop an.length)
    else
      c :: insertAfterEach (a :: an) ins rest
termination_by s.length
decreasing_by
  all_goals simp [List.length_drop]
  all_goals omega

/-- Modelled from the spec (the Splicer of section 4.3): insert the
rendered template text immediately before each occurrence of the anchor
text, preserving all other document bytes verbatim. -/
def insertBeforeEach (anchor ins : List Char) (s : List Char) : List Char :=
  match anchor, s with
  | [], _ => s
  | _ :: _, [] => []
  | a :: an, c :: rest =>
    if (a :: an).isPrefixOf (c :: rest) then
      ins ++ (a :: an) ++ insertBeforeEach (a :: an) ins (rest.drop an.length)
    else
      c :: insertBeforeEach (a :: an) ins rest
termination_by s.length
decreasing_by
  all_goals simp [List.length_drop]
  all_goals omega

theorem RA_eq_insertAfter (anchor ins s : List Char) :
    replaceAll anchor (anchor ++ ins) s = insertAfterEach anchor ins s := by
  induction anchor, ins, s using insertAfterEach.induct with
  | case1 ins s => rw [RA_unfold_nil]; simp [insertAfterEach]
  | case2 ins o os => rw [RA_unfold_empty]; simp [insertAfterEach]
  | case3 ins o os c rest hp ih =>
    rw [RA_unfold_pos _ hp, ih]
    simp [insertAfterEach, hp]
  | case4 ins o os c rest hp ih =>
    rw [RA_unfold_neg _ (eq_false_of_ne_true hp), ih]
    simp [insertAfterEach, eq_false_of_ne_true hp]

theorem RA_eq_insertBefore (anchor ins s : List Char) :
    replaceAll anchor (ins ++ anchor) s = insertBeforeEach anchor ins s := by
  induction anchor, ins, s using insertBeforeEach.induct with
  | case1 ins s => rw [RA_unfold_nil]; simp [insertBeforeEach]
  | case2 ins o os => rw [RA_unfold_empty]; simp [insertBeforeEach]
  | case3 ins o os c rest hp ih =>
    rw [RA_unfold_pos _ hp, ih]
    simp [insertBeforeEach, hp]
  | case4 ins o os c rest hp ih =>
    rw [RA_unfold_neg _ (eq_false_of_ne_true hp), ih]
    simp [insertBeforeEach, eq_false_of_ne_true hp]

/- ------------------------------------------------------------------ -/
/- More occurrence lemmas; properties of subCfg and searchSection.     -/
/- ------------------------------------------------------------------ -/

theorem countOcc_eq_zero {pat R : List Char}
    (h : ∀ q, pat.isPrefixOf (R.drop q) = false) : countOcc pat R = 0 := by
  induction R with
  | nil =>
    have h0 := h 0
    simp only [List.drop_nil] at h0
    simp [countOcc, h0]
  | cons c rest ih =>
    have h0 := h 0
    simp only [List.drop_zero] at h0
    have htail : ∀ q, pat.isPrefixOf (rest.drop q) = false := by
      intro q
      have := h (q + 1)
      simpa using this
    simp [countOcc, h0, ih htail]

theorem pfx_chain {A B X : List Char} (h1 : A.isPrefixOf X = true)
    (h2 : B.isPrefixOf (X.drop A.length) = true) :
    (A ++ B).isPrefixOf X = true := by
  have e1 := pfx_to_eq h1
  have e2 := pfx_to_eq h2
  rw [e1, e2, ← List.append_assoc]
  exact pfx_append_self (A ++ B) _

theorem SC_unfold_empty (l : Char) (ls lit2 ins : List Char) :
    subCfg (l :: ls) lit2 ins [] = [] := by
  rw [subCfg.eq_2]

theorem SC_unfold_pos {l : Char} {ls : List Char} (lit2 ins : List Char) {c : Char}
    {rest : List Char} (h1 : (l :: ls).isPrefixOf (c :: rest) = true)
    (h2 : lit2.isPrefixOf
      ((rest.drop ls.length).drop ((rest.drop ls.length).takeWhile pyIsSpace).length) = true) :
    subCfg (l :: ls) lit2 ins (c :: rest) =
      (l :: ls) ++ (rest.drop ls.length).takeWhile pyIsSpace ++ lit2 ++ ins ++
        subCfg (l :: ls) lit2 ins
          (((rest.drop ls.length).drop
              ((rest.drop ls.length).takeWhile pyIsSpace).length).drop lit2.length) := by
  rw [subCfg.eq_3]
  simp only [h1, h2, if_true]

theorem SC_unfold_mid {l : Char} {ls : List Char} (lit2 ins : List Char) {c : Char}
    {rest : List Char} (h1 : (l :: ls).isPrefixOf (c :: rest) = true)
    (h2 : lit2.isPrefixOf
      ((rest.drop ls.length).drop ((rest.drop ls.length).takeWhile pyIsSpace).length) = false) :
    subCfg (l :: ls) lit2 ins (c :: rest) = c :: subCfg (l :: ls) lit2 ins rest := by
  rw [subCfg.eq_3]
  simp only [h1, h2, if_true, Bool.false_eq_true, if_false]

theorem SC_unfold_neg {l : Char} {ls : List Char} (lit2 ins : List Char) {c : Char}
    {rest : List Char} (h1 : (l :: ls).isPrefixOf (c :: rest) = false) :
    subCfg (l :: ls) lit2 ins (c :: rest) = c :: subCfg (l :: ls) lit2 ins rest := by
  rw [subCfg.eq_3]
  simp only [h1, Bool.false_eq_true, if_false]

theorem SC_self {lit1 lit2 ins : List Char} (s : List Char)
    (h : countOcc lit1 s = 0) : subCfg lit1 lit2 ins s = s := by
  cases lit1 with
  | nil => rw [subCfg.eq_1]
  | cons l ls =>
    induction s with
    | nil => exact SC_unfold_empty l ls lit2 ins
    | cons c rest ih =>
      have hp : (l :: ls).isPrefixOf (c :: rest) = false := by
        cases hc : (l :: ls).isPrefixOf (c :: rest) with
        | false => rfl
        | true => exfalso; simp [countOcc, hc] at h
      have htail : countOcc (l :: ls) rest = 0 := by
        simp only [countOcc, hp, Bool.false_eq_true, if_false] at h
        omega
      rw [SC_unfold_neg lit2 ins hp, ih htail]

theorem SC_skip {lit1 lit2 ins : List Char} (A R : List Char)
    (h : ∀ p, p < A.length → lit1.isPrefixOf ((A ++ R).drop p) = false) :
    subCfg lit1 lit2 ins (A ++ R) = A ++ subCfg lit1 lit2 ins R := by
  cases lit1 with
  | nil => rw [subCfg.eq_1, subCfg.eq_1]
  | cons l ls =>
    induction A with
    | nil => simp
    | cons a A' ih =>
      have h0 : (l :: ls).isPrefixOf (a :: (A' ++ R)) = false := by
        have := h 0 (by simp)
        simpa using this
      have hrest : ∀ p, p < A'.length → (l :: ls).isPrefixOf ((A' ++ R).drop p) = false := by
        intro p hp
        have := h (p + 1) (by simp; omega)
        simpa using this
      simp only [List.cons_append]
      rw [SC_unfold_neg lit2 ins h0, ih hrest]

theorem SC_match {l : Char} {ls : List Char} {m : Char} {ms : List Char}
    (ins w R : List Char) (hw : ∀ c ∈ w, pyIsSpace c = true) (hm : pyIsSpace m = false) :
    subCfg (l :: ls) (m :: ms) ins ((l :: ls) ++ (w ++ ((m :: ms) ++ R))) =
      (l :: ls) ++ (w ++ ((m :: ms) ++ (ins ++ subCfg (l :: ls) (m :: ms) ins R))) := by
  have hshape : (l :: ls) ++ (w ++ ((m :: ms) ++ R)) = l :: (ls ++ (w ++ ((m :: ms) ++ R))) := by
    simp
  have ht : (ls ++ (w ++ ((m :: ms) ++ R))).drop ls.length = w ++ ((m :: ms) ++ R) :=
    List.drop_left _ _
  have htw : (w ++ ((m :: ms) ++ R)).takeWhile pyIsSpace = w := by
    rw [twAppendAll _ hw]
    simp only [List.cons_append]
    rw [twConsFalse _ hm, List.append_nil]
  have hu : (w ++ ((m :: ms) ++ R)).drop w.length = (m :: ms) ++ R :=
    List.drop_left _ _
  have hpfx1 : (l :: ls).isPrefixOf (l :: (ls ++ (w ++ ((m :: ms) ++ R)))) = true := by
    have h0 := pfx_append_self (l :: ls) (w ++ ((m :: ms) ++ R))
    simp only [List.cons_append] at h0
    exact h0
  have hpfx2 : (m :: ms).isPrefixOf
      (((ls ++ (w ++ ((m :: ms) ++ R))).drop ls.length).drop
        (((ls ++ (w ++ ((m :: ms) ++ R))).drop ls.length).takeWhile pyIsSpace).length) = true := by
    rw [ht, htw, hu]
    exact pfx_append_self (m :: ms) R
  rw [hshape, SC_unfold_pos (m :: ms) ins hpfx1 hpfx2]
  rw [ht, htw, hu]
  have hfinal : ((m :: ms) ++ R).drop (m :: ms).length = R := List.drop_left _ _
  simp only [List.length_cons] at hfinal
  simp only [List.length_cons]
  rw [hfinal]
  simp

theorem SC_single {l : Char} {ls : List Char} {m : Char} {ms : List Char}
    (ins A w R : List Char) (hw : ∀ c ∈ w, pyIsSpace c = true) (hm : pyIsSpace m = false)
    (hcnt : countOcc (l :: ls) (A ++ ((l :: ls) ++ (w ++ ((m :: ms) ++ R)))) = 1) :
    subCfg (l :: ls) (m :: ms) ins (A ++ ((l :: ls) ++ (w ++ ((m :: ms) ++ R)))) =
      A ++ ((l :: ls) ++ (w ++ ((m :: ms) ++ (ins ++ R)))) := by
  have hne : (l :: ls) ≠ ([] : List Char) := by simp
  have hAt : (l :: ls).isPrefixOf
      ((A ++ ((l :: ls) ++ (w ++ ((m :: ms) ++ R)))).drop A.length) = true := by
    rw [List.drop_left]
    exact pfx_append_self _ _
  have hskip : ∀ p, p < A.length →
      (l :: ls).isPrefixOf ((A ++ ((l :: ls) ++ (w ++ ((m :: ms) ++ R)))).drop p) = false := by
    intro p hp
    exact countOcc_unique hne hcnt hAt p (by omega)
  have hR : countOcc (l :: ls) R = 0 := by
    refine countOcc_eq_zero ?_
    intro q
    cases hc : (l :: ls).isPrefixOf (R.drop q) with
    | false => rfl
    | true =>
      exfalso
      have hlift : (l :: ls).isPrefixOf
          ((A ++ ((l :: ls) ++ (w ++ ((m :: ms) ++ R)))).drop
            (A.length + ((l :: ls).length + (w.length + ((m :: ms).length + q))))) = true :=
        occAt_cat A (occAt_cat (l :: ls) (occAt_cat w (occAt_cat (m :: ms) hc)))
      have hfalse := countOcc_unique hne hcnt hAt
        (A.length + ((l :: ls).length + (w.length + ((m :: ms).length + q))))
        (by simp only [List.length_cons]; omega)
      rw [hlift] at hfalse
      simp at hfalse
  rw [SC_skip A _ hskip, SC_match ins w R hw hm, SC_self R hR]

theorem SC_sublist (lit1 lit2 ins s : List Char) : s.Sublist (subCfg lit1 lit2 ins s) := by
  induction lit1, lit2, ins, s using subCfg.induct with
  | case1 lit2 ins s => rw [subCfg.eq_1]
  | case2 lit2 ins o os => rw [subCfg.eq_2]
  | case3 lit2 ins o os c rest hp t w u hp2 ih =>
    rw [SC_unfold_pos lit2 ins hp hp2]
    have hs1 : c :: rest = (o :: os) ++ rest.drop os.length := by
      have h0 := pfx_to_eq hp
      simpa using h0
    have hs2 : rest.drop os.length =
        (rest.drop os.length).takeWhile pyIsSpace ++
          ((rest.drop os.length).drop ((rest.drop os.length).takeWhile pyIsSpace).length) :=
      (twAppendDrop pyIsSpace (rest.drop os.length)).symm
    have hs3 : (rest.drop os.length).drop ((rest.drop os.length).takeWhile pyIsSpace).length =
        lit2 ++ (((rest.drop os.length).drop
          ((rest.drop os.length).takeWhile pyIsSpace).length).drop lit2.length) :=
      pfx_to_eq hp2
    rw [hs1]
    conv_lhs => rw [hs2, hs3]
    simp only [List.append_assoc]
    refine (List.Sublist.refl (o :: os)).append ?_
    refine (List.Sublist.refl _).append ?_
    refine (List.Sublist.refl _).append ?_
    exact ih.trans (List.sublist_append_right ins _)
  | case4 lit2 ins o os c rest hp t w u hp2 ih =>
    rw [SC_unfold_mid lit2 ins hp (eq_false_of_ne_true hp2)]
    exact List.Sublist.cons₂ c ih
  | case5 lit2 ins o os c rest hp ih =>
    rw [SC_unfold_neg lit2 ins (eq_false_of_ne_true hp)]
    exact List.Sublist.cons₂ c ih

theorem SS_none {beginL : List Char} (endL s : List Char)
    (h : countOcc beginL s = 0) : searchSection beginL endL s = none := by
  induction s with
  | nil => simp [searchSection]
  | cons c rest ih =>
    have hp : beginL.isPrefixOf (c :: rest) = false := by
      cases hc : beginL.isPrefixOf (c :: rest) with
      | false => rfl
      | true => exfalso; simp [countOcc, hc] at h
    have htail : countOcc beginL rest = 0 := by
      simp only [countOcc, hp, Bool.false_eq_true, if_false] at h
      omega
    simp only [searchSection, hp, Bool.false_eq_true, if_false]
    exact ih htail

theorem SS_skip {beginL endL : List Char} (A R : List Char)
    (h : ∀ p, p < A.length → beginL.isPrefixOf ((A ++ R).drop p) = false) :
    searchSection beginL endL (A ++ R) = searchSection beginL endL R := by
  induction A with
  | nil => simp
  | cons a A' ih =>
    have h0 : beginL.isPrefixOf (a :: (A' ++ R)) = false := by
      have := h 0 (by simp)
      simpa using this
    have hrest : ∀ p, p < A'.length → beginL.isPrefixOf ((A' ++ R).drop p) = false := by
      intro p hp
      have := h (p + 1) (by simp; omega)
      simpa using this
    simp only [List.cons_append, searchSection, h0, Bool.false_eq_true, if_false, List.append_eq]
    exact ih hrest

theorem PB_unique (G B endL : List Char) (he : endL ≠ [])
    (h : ∀ q, q < G.length → endL.isPrefixOf ((G ++ (endL ++ B)).drop q) = false) :
    prefixBefore endL (G ++ (endL ++ B)) = some G := by
  induction G with
  | nil =>
    obtain ⟨e, es, rfl⟩ := List.exists_cons_of_ne_nil he
    have hpfx : (e :: es).isPrefixOf (e :: (es ++ B)) = true := by
      have h0 := pfx_append_self (e :: es) B
      simp only [List.cons_append] at h0
      exact h0
    simp only [List.nil_append, List.cons_append, prefixBefore, List.append_eq, hpfx, if_true]
  | cons g G' ih =>
    have h0 : endL.isPrefixOf (g :: (G' ++ (endL ++ B))) = false := by
      have := h 0 (by simp)
      simpa using this
    have hrest : ∀ q, q < G'.length → endL.isPrefixOf ((G' ++ (endL ++ B)).drop q) = false := by
      intro q hq
      have := h (q + 1) (by simp; omega)
      simpa using this
    simp only [List.cons_append, prefixBefore, h0, Bool.false_eq_true, if_false, List.append_eq]
    rw [ih hrest]
    rfl

theorem SS_found (A G B beginL endL : List Char) (hb : beginL ≠ []) (he : endL ≠ [])
    (h1 : countOcc beginL (A ++ (beginL ++ (G ++ (endL ++ B)))) = 1)
    (h2 : countOcc endL (A ++ (beginL ++ (G ++ (endL ++ B)))) = 1) :
    searchSection beginL endL (A ++ (beginL ++ (G ++ (endL ++ B)))) = some G := by
  have hAt : beginL.isPrefixOf
      ((A ++ (beginL ++ (G ++ (endL ++ B)))).drop A.length) = true := by
    rw [List.drop_left]
    exact pfx_append_self _ _
  have hskip : ∀ p, p < A.length →
      beginL.isPrefixOf ((A ++ (beginL ++ (G ++ (endL ++ B)))).drop p) = false :=
    fun p hp => countOcc_unique hb h1 hAt p (by omega)
  have hEndAt : endL.isPrefixOf
      ((A ++ (beginL ++ (G ++ (endL ++ B)))).drop
        (A.length + (beginL.length + (G.length + 0)))) = true := by
    refine occAt_cat A (occAt_cat beginL (occAt_cat G ?_))
    simp only [List.drop_zero]
    exact pfx_append_self endL B
  have hPB : prefixBefore endL (G ++ (endL ++ B)) = some G := by
    refine PB_unique G B endL he ?_
    intro q hq
    cases hc : endL.isPrefixOf ((G ++ (endL ++ B)).drop q) with
    | false => rfl
    | true =>
      exfalso
      have hlift := occAt_cat A (occAt_cat beginL hc)
      have hfalse := countOcc_unique he h2 hEndAt
        (A.length + (beginL.length + q)) (by omega)
      rw [hlift] at hfalse
      simp at hfalse
  rw [SS_skip A _ hskip]
  obtain ⟨b0, bs, rfl⟩ := List.exists_cons_of_ne_nil hb
  have hpfx : (b0 :: bs).isPrefixOf (b0 :: (bs ++ (G ++ (endL ++ B)))) = true := by
    have h0 := pfx_append_self (b0 :: bs) (G ++ (endL ++ B))
    simp only [List.cons_append] at h0
    exact h0
  have hdrop : (bs ++ (G ++ (endL ++ B))).drop bs.length = G ++ (endL ++ B) :=
    List.drop_left _ _
  simp only [List.cons_append, searchSection, hpfx, if_true, List.length_cons,
    List.drop_succ_cons, List.append_eq, hdrop, hPB]

theorem TB_none_of_hdr {hdr mid : List Char} {e1 e2 : Char} {s : List Char}
    (h : hdr.isPrefixOf s = false) : tryBlock hdr mid e1 e2 s = none := by
  simp [tryBlock, h]

theorem TB_eval {hdr mid : List Char} {e1 e2 : Char} {s : List Char} {k : Nat}
    (h1 : hdr.isPrefixOf s = true)
    (h2 : bestK mid (s.drop hdr.length) e2
      (((s.drop hdr.length).takeWhile (notChar e1)).length) = some k) :
    tryBlock hdr mid e1 e2 s =
      some (hdr ++ (s.drop hdr.length).take k ++ mid ++
        ((s.drop hdr.length).drop (k + mid.length)).takeWhile (notChar e2)) := by
  simp only [tryBlock, h1, if_true, h2]

theorem TB_none_of_bestK {hdr mid : List Char} {e1 e2 : Char} {s : List Char}
    (h1 : hdr.isPrefixOf s = true)
    (h2 : bestK mid (s.drop hdr.length) e2
      (((s.drop hdr.length).takeWhile (notChar e1)).length) = none) :
    tryBlock hdr mid e1 e2 s = none := by
  simp only [tryBlock, h1, if_true, h2]

theorem TB_some {hdr mid : List Char} {e1 e2 : Char} {s g : List Char}
    (h : tryBlock hdr mid e1 e2 s = some g) :
    hdr.isPrefixOf s = true ∧ ∃ k,
      bestK mid (s.drop hdr.length) e2
        (((s.drop hdr.length).takeWhile (notChar e1)).length) = some k ∧
      g = hdr ++ (s.drop hdr.length).take k ++ mid ++
          ((s.drop hdr.length).drop (k + mid.length)).takeWhile (notChar e2) := by
  cases hp : hdr.isPrefixOf s with
  | false => rw [TB_none_of_hdr hp] at h; exact absurd h (by simp)
  | true =>
    refine ⟨rfl, ?_⟩
    cases hbk : bestK mid (s.drop hdr.length) e2
        (((s.drop hdr.length).takeWhile (notChar e1)).length) with
    | none => rw [TB_none_of_bestK hp hbk] at h; exact absurd h (by simp)
    | some k =>
      rw [TB_eval hp hbk] at h
      exact ⟨k, rfl, (Option.some.injEq _ _).mp h |>.symm⟩

theorem bestK_some {mid t : List Char} {e2 : Char} {n k : Nat}
    (h : bestK mid t e2 n = some k) :
    blockCond mid t e2 k = true ∧ 1 ≤ k ∧ k ≤ n := by
  induction n with
  | zero => simp [bestK] at h
  | succ n ih =>
    by_cases hc : blockCond mid t e2 (n + 1) = true
    · simp only [bestK, hc, if_true, Option.some.injEq] at h
      subst h
      exact ⟨hc, by omega, by omega⟩
    · simp only [bestK, hc, if_false] at h
      obtain ⟨h1, h2, h3⟩ := ih h
      exact ⟨h1, h2, by omega⟩

theorem bestK_eval {mid t : List Char} {e2 : Char} {k0 : Nat}
    (hk0 : 0 < k0) (hcond : blockCond mid t e2 k0 = true)
    (hnone : ∀ k, k0 < k → blockCond mid t e2 k = false) :
    ∀ n, k0 ≤ n → bestK mid t e2 n = some k0 := by
  intro n
  induction n with
  | zero => intro h; omega
  | succ n ih =>
    intro hle
    by_cases hx : k0 = n + 1
    · subst hx
      simp [bestK, hcond]
    · have hf : blockCond mid t e2 (n + 1) = false := hnone (n + 1) (by omega)
      simp only [bestK, hf, Bool.false_eq_true, if_false]
      exact ih (by omega)

theorem blockCond_fst {mid t : List Char} {e2 : Char} {k : Nat}
    (h : blockCond mid t e2 k = true) : mid.isPrefixOf (t.drop k) = true := by
  simp only [blockCond, Bool.and_eq_true] at h
  exact h.1

theorem blockCond_of_fst_false {mid t : List Char} {e2 : Char} {k : Nat}
    (h : mid.isPrefixOf (t.drop k) = false) : blockCond mid t e2 k = false := by
  simp [blockCond, h]

theorem SB_skip {hdr mid : List Char} {e1 e2 : Char} (A R : List Char)
    (h : ∀ p, p < A.length → hdr.isPrefixOf ((A ++ R).drop p) = false) :
    searchBlock hdr mid e1 e2 (A ++ R) = searchBlock hdr mid e1 e2 R := by
  induction A with
  | nil => simp
  | cons a A' ih =>
    have h0 : hdr.isPrefixOf (a :: (A' ++ R)) = false := by
      have := h 0 (by simp)
      simpa using this
    have hrest : ∀ p, p < A'.length → hdr.isPrefixOf ((A' ++ R).drop p) = false := by
      intro p hp
      have := h (p + 1) (by simp; omega)
      simpa using this
    simp only [List.cons_append, searchBlock, List.append_eq, TB_none_of_hdr h0]
    exact ih hrest

theorem SB_shape {hdr mid : List Char} {e1 e2 : Char} {s g : List Char}
    (h : searchBlock hdr mid e1 e2 s = some g) : ∃ X, g = hdr ++ X := by
  induction s with
  | nil => simp [searchBlock] at h
  | cons c rest ih =>
    cases htry : tryBlock hdr mid e1 e2 (c :: rest) with
    | some g' =>
      simp only [searchBlock, htry, Option.some.injEq] at h
      subst h
      obtain ⟨_, k, _, hg⟩ := TB_some htry
      refine ⟨((c :: rest).drop hdr.length).take k ++ (mid ++
        (((c :: rest).drop hdr.length).drop (k + mid.length)).takeWhile (notChar e2)), ?_⟩
      rw [hg]
      simp [List.append_assoc]
    | none =>
      simp only [searchBlock, htry] at h
      exact ih h

theorem SB_occurs {hdr mid : List Char} {e1 e2 : Char} {s g : List Char}
    (h : searchBlock hdr mid e1 e2 s = some g) :
    ∃ p, g.isPrefixOf (s.drop p) = true := by
  induction s with
  | nil => simp [searchBlock] at h
  | cons c rest ih =>
    cases htry : tryBlock hdr mid e1 e2 (c :: rest) with
    | some g' =>
      simp only [searchBlock, htry, Option.some.injEq] at h
      subst h
      obtain ⟨hp, k, hbk, hg⟩ := TB_some htry
      refine ⟨0, ?_⟩
      simp only [List.drop_zero]
      set t := (c :: rest).drop hdr.length with hts
      obtain ⟨hcond, hk1, hkn⟩ := bestK_some hbk
      have hmid := blockCond_fst hcond
      have hkt : k ≤ t.length := by
        have h0 := (List.takeWhile_sublist (l := t) (notChar e1)).length_le
        omega
      have hlen : (t.take k).length = k := by
        simp only [List.length_take]
        omega
      have hX : (c :: rest) = hdr ++ t := pfx_to_eq hp
      have htake : (t.take k).isPrefixOf t = true := by
        rw [pfx_iff_take, hlen]
      have hC1 : (hdr ++ t.take k).isPrefixOf (c :: rest) = true :=
        pfx_chain hp htake
      have hP3 : mid.isPrefixOf ((c :: rest).drop ((hdr ++ t.take k).length)) = true := by
        conv_lhs => rw [hX]
        simp only [List.length_append, hlen]
        rw [dropApp]
        exact hmid
      have hC2 : ((hdr ++ t.take k) ++ mid).isPrefixOf (c :: rest) = true :=
        pfx_chain hC1 hP3
      have hP4 : ((t.drop (k + mid.length)).takeWhile (notChar e2)).isPrefixOf
          ((c :: rest).drop (((hdr ++ t.take k) ++ mid).length)) = true := by
        conv_lhs => rw [hX]
        simp only [List.length_append, hlen]
        rw [Nat.add_assoc, dropApp]
        have h5 := pfx_append_self
          ((t.drop (k + mid.length)).takeWhile (notChar e2))
          ((t.drop (k + mid.length)).drop
            (((t.drop (k + mid.length)).takeWhile (notChar e2)).length))
        rw [twAppendDrop] at h5
        exact h5
      have hC3 := pfx_chain hC2 hP4
      rw [hg]
      simp only [List.append_assoc] at hC3 ⊢
      exact hC3
    | none =>
      simp only [searchBlock, htry] at h
      obtain ⟨p, hpp⟩ := ih h
      exact ⟨p + 1, by simpa using hpp⟩

theorem SB_found (hdr mid A a1 E : List Char) (kh : Char) (kt : List Char)
    (hhne : hdr ≠ []) (hmne : mid ≠ []) (ha1ne : a1 ≠ [])
    (ha1 : ∀ c ∈ a1, notChar '\x7d' c = true)
    (hmid7 : ∀ c ∈ mid, notChar '\x7d' c = true)
    (hk7 : ∀ c ∈ (kh :: kt), notChar '\x7d' c = true)
    (hk9 : ∀ c ∈ (kh :: kt), notChar ')' c = true)
    (hcnt : countOcc hdr
      (A ++ (hdr ++ (a1 ++ (mid ++ ((kh :: kt) ++ ([')', ';', '\x7d'] ++ E)))))) = 1)
    (hmid1 : countOcc mid (mid ++ ((kh :: kt) ++ ([')', ';', '\x7d'] ++ E))) = 1) :
    searchBlock hdr mid '\x7d' ')'
      (A ++ (hdr ++ (a1 ++ (mid ++ ((kh :: kt) ++ ([')', ';', '\x7d'] ++ E)))))) =
      some (hdr ++ (a1 ++ (mid ++ (kh :: kt)))) := by
  set W := a1 ++ (mid ++ ((kh :: kt) ++ ([')', ';', '\x7d'] ++ E))) with hW
  have hAt : hdr.isPrefixOf ((A ++ (hdr ++ W)).drop A.length) = true := by
    rw [List.drop_left]
    exact pfx_append_self _ _
  have hskip : ∀ p, p < A.length → hdr.isPrefixOf ((A ++ (hdr ++ W)).drop p) = false :=
    fun p hp => countOcc_unique hhne hcnt hAt p (by omega)
  rw [SB_skip A _ hskip]
  have htw7 : W.takeWhile (notChar '\x7d') = a1 ++ (mid ++ ((kh :: kt) ++ [')', ';'])) := by
    rw [hW, twAppendAll _ ha1, twAppendAll _ hmid7, twAppendAll _ hk7]
    simp only [show ([')', ';', '\x7d'] ++ E).takeWhile (notChar '\x7d') = [')', ';'] from rfl]
  have hVdrop : W.drop a1.length = mid ++ ((kh :: kt) ++ ([')', ';', '\x7d'] ++ E)) := by
    rw [hW]
    exact List.drop_left _ _
  have hV2drop : W.drop (a1.length + mid.length) = (kh :: kt) ++ ([')', ';', '\x7d'] ++ E) := by
    rw [hW, dropApp]
    exact List.drop_left _ _
  have hcond : blockCond mid W ')' a1.length = true := by
    simp only [blockCond, hVdrop, hV2drop, Bool.and_eq_true, List.cons_append]
    exact ⟨pfx_append_self mid _, hk9 kh (by simp)⟩
  have hnone : ∀ k, a1.length < k → blockCond mid W ')' k = false := by
    intro k hk
    refine blockCond_of_fst_false ?_
    cases hc : mid.isPrefixOf (W.drop k) with
    | false => rfl
    | true =>
      exfalso
      have hj : W.drop k = (mid ++ ((kh :: kt) ++ ([')', ';', '\x7d'] ++ E))).drop (k - a1.length) := by
        conv_lhs => rw [hW, show k = a1.length + (k - a1.length) from by omega]
        exact dropApp a1 _ _
      rw [hj] at hc
      have hfirst : mid.isPrefixOf
          ((mid ++ ((kh :: kt) ++ ([')', ';', '\x7d'] ++ E))).drop 0) = true := by
        simp only [List.drop_zero]
        exact pfx_append_self mid _
      have h2 := countOcc_two hmne (p := 0) (q := k - a1.length) (by omega) hfirst hc
      omega
  have hk0pos : 0 < a1.length := List.length_pos.mpr ha1ne
  have hkn : a1.length ≤ (W.takeWhile (notChar '\x7d')).length := by
    rw [htw7]
    simp [List.length_append]
  have hbk : bestK mid W ')' ((W.takeWhile (notChar '\x7d')).length) = some a1.length :=
    bestK_eval hk0pos hcond hnone _ hkn
  have htwP : ((kh :: kt) ++ ([')', ';', '\x7d'] ++ E)).takeWhile (notChar ')') = kh :: kt := by
    rw [twAppendAll _ hk9]
    simp only [show ([')', ';', '\x7d'] ++ E).takeWhile (notChar ')') = [] from rfl,
      List.append_nil]
  have htake : W.take a1.length = a1 := by
    rw [hW]
    exact List.take_left _ _
  have htb : tryBlock hdr mid '\x7d' ')' (hdr ++ W) =
      some (hdr ++ (a1 ++ (mid ++ (kh :: kt)))) := by
    rw [TB_eval (pfx_append_self hdr W) (by rw [List.drop_left]; exact hbk)]
    rw [List.drop_left, htake, hV2drop, htwP]
    simp [List.append_assoc]
  obtain ⟨h0, hs, rfl⟩ := List.exists_cons_of_ne_nil hhne
  simp only [List.cons_append] at htb ⊢
  simp only [searchBlock, List.append_eq, htb]

theorem SR_unfold_pos {l : Char} {ls lit2 lit3 ins : List Char} {c : Char}
    {rest t w1 u1 t2 w2 u2 t3 w3 : List Char}
    (ht : t = rest.drop ls.length) (hw1 : w1 = t.takeWhile pyIsSpace)
    (hu1 : u1 = t.drop w1.length)
    (h1 : (l :: ls).isPrefixOf (c :: rest) = true) (h2 : lit2.isPrefixOf u1 = true)
    (ht2 : t2 = u1.drop lit2.length) (hw2 : w2 = t2.takeWhile pyIsSpace)
    (hu2 : u2 = t2.drop w2.length) (h3 : lit3.isPrefixOf u2 = true)
    (ht3 : t3 = u2.drop lit3.length) (hw3 : w3 = t3.takeWhile pyIsSpace) :
    subRoot3 (l :: ls) lit2 lit3 ins (c :: rest) =
      (l :: ls) ++ w1 ++ lit2 ++ w2 ++ lit3 ++ w3 ++ ins ++
        subRoot3 (l :: ls) lit2 lit3 ins (t3.drop w3.length) := by
  subst ht hw1 hu1 ht2 hw2 hu2 ht3 hw3
  rw [subRoot3.eq_3]
  simp only [h1, h2, h3, if_true]

theorem SR_unfold_neg3 {l : Char} {ls lit2 lit3 ins : List Char} {c : Char}
    {rest t w1 u1 t2 w2 u2 : List Char}
    (ht : t = rest.drop ls.length) (hw1 : w1 = t.takeWhile pyIsSpace)
    (hu1 : u1 = t.drop w1.length)
    (h1 : (l :: ls).isPrefixOf (c :: rest) = true) (h2 : lit2.isPrefixOf u1 = true)
    (ht2 : t2 = u1.drop lit2.length) (hw2 : w2 = t2.takeWhile pyIsSpace)
    (hu2 : u2 = t2.drop w2.length) (h3 : lit3.isPrefixOf u2 = false) :
    subRoot3 (l :: ls) lit2 lit3 ins (c :: rest) =
      c :: subRoot3 (l :: ls) lit2 lit3 ins rest := by
  subst ht hw1 hu1 ht2 hw2 hu2
  rw [subRoot3.eq_3]
  simp only [h1, h2, h3, if_true, Bool.false_eq_true, if_false]

theorem SR_unfold_neg2 {l : Char} {ls lit2 lit3 ins : List Char} {c : Char}
    {rest t w1 u1 : List Char}
    (ht : t = rest.drop ls.length) (hw1 : w1 = t.takeWhile pyIsSpace)
    (hu1 : u1 = t.drop w1.length)
    (h1 : (l :: ls).isPrefixOf (c :: rest) = true) (h2 : lit2.isPrefixOf u1 = false) :
    subRoot3 (l :: ls) lit2 lit3 ins (c :: rest) =
      c :: subRoot3 (l :: ls) lit2 lit3 ins rest := by
  subst ht hw1 hu1
  rw [subRoot3.eq_3]
  simp only [h1, h2, if_true, Bool.false_eq_true, if_false]

theorem SR_unfold_neg1 {l : Char} {ls lit2 lit3 ins : List Char} {c : Char}
    {rest : List Char}
    (h1 : (l :: ls).isPrefixOf (c :: rest) = false) :
    subRoot3 (l :: ls) lit2 lit3 ins (c :: rest) =
      c :: subRoot3 (l :: ls) lit2 lit3 ins rest := by
  rw [subRoot3.eq_3]
  simp only [h1, Bool.false_eq_true, if_false]

theorem SR_sublist (lit1 lit2 lit3 ins s : List Char) :
    s.Sublist (subRoot3 lit1 lit2 lit3 ins s) := by
  induction lit1, lit2, lit3, ins, s using subRoot3.induct with
  | case1 lit2 lit3 ins s => rw [subRoot3.eq_1]
  | case2 lit2 lit3 ins o os => rw [subRoot3.eq_2]
  | case3 lit2 lit3 ins o os c rest hp t w1 u1 hp2 t2 w2 u2 hp3 t3 w3 ih =>
    rw [SR_unfold_pos rfl rfl rfl hp hp2 rfl rfl rfl hp3 rfl rfl]
    have hs1 : c :: rest = (o :: os) ++ t := by
      have h0 := pfx_to_eq hp
      simp only [List.length_cons, List.drop_succ_cons] at h0
      exact h0
    have hs2 : t = w1 ++ u1 := (twAppendDrop pyIsSpace t).symm
    have hs3 : u1 = lit2 ++ t2 := pfx_to_eq hp2
    have hs4 : t2 = w2 ++ u2 := (twAppendDrop pyIsSpace t2).symm
    have hs5 : u2 = lit3 ++ t3 := pfx_to_eq hp3
    have hs6 : t3 = w3 ++ t3.drop w3.length := (twAppendDrop pyIsSpace t3).symm
    rw [hs1]
    conv_lhs => rw [hs2, hs3, hs4, hs5, hs6]
    simp only [List.append_assoc]
    refine (List.Sublist.refl (o :: os)).append ?_
    refine (List.Sublist.refl w1).append ?_
    refine (List.Sublist.refl lit2).append ?_
    refine (List.Sublist.refl w2).append ?_
    refine (List.Sublist.refl lit3).append ?_
    refine (List.Sublist.refl w3).append ?_
    exact ih.trans (List.sublist_append_right ins _)
  | case4 lit2 lit3 ins o os c rest hp t w1 u1 hp2 t2 w2 u2 hp3 ih =>
    rw [SR_unfold_neg3 rfl rfl rfl hp hp2 rfl rfl rfl (eq_false_of_ne_true hp3)]
    exact List.Sublist.cons₂ c ih
  | case5 lit2 lit3 ins o os c rest hp t w1 u1 hp2 ih =>
    rw [SR_unfold_neg2 rfl rfl rfl hp (eq_false_of_ne_true hp2)]
    exact List.Sublist.cons₂ c ih
  | case6 lit2 lit3 ins o os c rest hp ih =>
    rw [SR_unfold_neg1 (eq_false_of_ne_true hp)]
    exact List.Sublist.cons₂ c ih

/- ------------------------------------------------------------------ -/
/- Fuel-based executable twins of the well-founded functions, used to  -/
/- evaluate the model on concrete documents inside the kernel.         -/
/- ------------------------------------------------------------------ -/

/-- Structural (fuel-indexed) version of `replaceAll`. -/
def replaceAllF : Nat → List Char → List Char → List Char → List Char
  | 0, _, _, s => s
  | fuel + 1, old, new, s =>
    match old, s with
    | [], _ => s
    | _ :: _, [] => []
    | o :: os, c :: rest =>
      if (o :: os).isPrefixOf (c :: rest) then
        new ++ replaceAllF fuel (o :: os) new (rest.drop os.length)
      else
        c :: replaceAllF fuel (o :: os) new rest

theorem RA_exec : ∀ (fuel : Nat) (old new s : List Char), s.length < fuel →
    replaceAllF fuel old new s = replaceAll old new s := by
  intro fuel
  induction fuel with
  | zero => intro old new s h; omega
  | succ n ih =>
    intro old new s h
    match old, s with
    | [], s => rw [RA_unfold_nil]; rfl
    | o :: os, [] => rw [RA_unfold_empty]; rfl
    | o :: os, c :: rest =>
      cases hp : (o :: os).isPrefixOf (c :: rest) with
      | true =>
        rw [RA_unfold_pos _ hp]
        simp only [replaceAllF, hp, if_true]
        rw [ih]
        simp only [List.length_cons] at h
        simp only [List.length_drop]
        omega
      | false =>
        rw [RA_unfold_neg _ hp]
        simp only [replaceAllF, hp, Bool.false_eq_true, if_false]
        rw [ih]
        simp only [List.length_cons] at h
        omega

theorem RA_run (old new s : List Char) :
    replaceAll old new s = replaceAllF (s.length + 1) old new s :=
  (RA_exec (s.length + 1) old new s (by omega)).symm

/-- Structural (fuel-indexed) version of `subCfg`. -/
def subCfgF : Nat → List Char → List Char → List Char → List Char → List Char
  | 0, _, _, _, s => s
  | fuel + 1, lit1, lit2, ins, s =>
    match lit1, s with
    | [], _ => s
    | _ :: _, [] => []
    | l :: ls, c :: rest =>
      if (l :: ls).isPrefixOf (c :: rest) then
        let t := rest.drop ls.length
        let w := t.takeWhile pyIsSpace
        let u := t.drop w.length
        if lit2.isPrefixOf u then
          (l :: ls) ++ w ++ lit2 ++ ins ++ subCfgF fuel (l :: ls) lit2 ins (u.drop lit2.length)
        else
          c :: subCfgF fuel (l :: ls) lit2 ins rest
      else
        c :: subCfgF fuel (l :: ls) lit2 ins rest

theorem SC_exec : ∀ (fuel : Nat) (lit1 lit2 ins s : List Char), s.length < fuel →
    subCfgF fuel lit1 lit2 ins s = subCfg lit1 lit2 ins s := by
  intro fuel
  induction fuel with
  | zero => intro lit1 lit2 ins s h; omega
  | succ n ih =>
    intro lit1 lit2 ins s h
    match lit1, s with
    | [], s => rw [subCfg.eq_1]; rfl
    | l :: ls, [] => rw [subCfg.eq_2]; rfl
    | l :: ls, c :: rest =>
      cases hp : (l :: ls).isPrefixOf (c :: rest) with
      | false =>
        rw [SC_unfold_neg _ _ hp]
        simp only [subCfgF, hp, Bool.false_eq_true, if_false]
        rw [ih]
        simp only [List.length_cons] at h
        omega
      | true =>
        cases h2 : lit2.isPrefixOf
            ((rest.drop ls.length).drop ((rest.drop ls.length).takeWhile pyIsSpace).length) with
        | false =>
          rw [SC_unfold_mid _ _ hp h2]
          simp only [subCfgF, hp, h2, if_true, Bool.false_eq_true, if_false]
          rw [ih]
          simp only [List.length_cons] at h
          omega
        | true =>
          rw [SC_unfold_pos _ _ hp h2]
          simp only [subCfgF, hp, h2, if_true]
          rw [ih]
          simp only [List.length_cons] at h
          simp only [List.length_drop]
          omega

theorem SC_run (lit1 lit2 ins s : List Char) :
    subCfg lit1 lit2 ins s = subCfgF (s.length + 1) lit1 lit2 ins s :=
  (SC_exec (s.length + 1) lit1 lit2 ins s (by omega)).symm

/-- Structural (fuel-indexed) version of `subRoot3`. -/
def subRoot3F : Nat → List Char → List Char → List Char → List Char → List Char → List Char
  | 0, _, _, _, _, s => s
  | fuel + 1, lit1, lit2, lit3, ins, s =>
    match lit1, s with
    | [], _ => s
    | _ :: _, [] => []
    | l :: ls, c :: rest =>
      if (l :: ls).isPrefixOf (c :: rest) then
        let t := rest.drop ls.length
        let w1 := t.takeWhile pyIsSpace
        let u1 := t.drop w1.length
        if lit2.isPrefixOf u1 then
          let t2 := u1.drop lit2.length
          let w2 := t2.takeWhile pyIsSpace
          let u2 := t2.drop w2.length
          if lit3.isPrefixOf u2 then
            let t3 := u2.drop lit3.length
            let w3 := t3.takeWhile pyIsSpace
            (l :: ls) ++ w1 ++ lit2 ++ w2 ++ lit3 ++ w3 ++ ins ++
              subRoot3F fuel (l :: ls) lit2 lit3 ins (t3.drop w3.length)
          else
            c :: subRoot3F fuel (l :: ls) lit2 lit3 ins rest
        else
          c :: subRoot3F fuel (l :: ls) lit2 lit3 ins rest
      else
        c :: subRoot3F fuel (l :: ls) lit2 lit3 ins rest

theorem SR_exec : ∀ (fuel : Nat) (lit1 lit2 lit3 ins s : List Char), s.length < fuel →
    subRoot3F fuel lit1 lit2 lit3 ins s = subRoot3 lit1 lit2 lit3 ins s := by
  intro fuel
  induction fuel with
  | zero => intro lit1 lit2 lit3 ins s h; omega
  | succ n ih =>
    intro lit1 lit2 lit3 ins s h
    match lit1, s with
    | [], s => rw [subRoot3.eq_1]; rfl
    | l :: ls, [] => rw [subRoot3.eq_2]; rfl
    | l :: ls, c :: rest =>
      cases hp : (l :: ls).isPrefixOf (c :: rest) with
      | false =>
        rw [SR_unfold_neg1 hp]
        simp only [subRoot3F, hp, Bool.false_eq_true, if_false]
        rw [ih]
        simp only [List.length_cons] at h
        omega
      | true =>
        cases h2 : lit2.isPrefixOf
            ((rest.drop ls.length).drop ((rest.drop ls.length).takeWhile pyIsSpace).length) with
        | false =>
          rw [SR_unfold_neg2 rfl rfl rfl hp h2]
          simp only [subRoot3F, hp, h2, if_true, Bool.false_eq_true, if_false]
          rw [ih]
          simp only [List.length_cons] at h
          omega
        | true =>
          cases h3 : lit3.isPrefixOf
              ((((rest.drop ls.length).drop
                  ((rest.drop ls.length).takeWhile pyIsSpace).length).drop lit2.length).drop
                ((((rest.drop ls.length).drop
                  ((rest.drop ls.length).takeWhile pyIsSpace).length).drop
                    lit2.length).takeWhile pyIsSpace).length) with
          | false =>
            rw [SR_unfold_neg3 rfl rfl rfl hp h2 rfl rfl rfl h3]
            simp only [subRoot3F, hp, h2, h3, if_true, Bool.false_eq_true, if_false]
            rw [ih]
            simp only [List.length_cons] at h
            omega
          | true =>
            rw [SR_unfold_pos rfl rfl rfl hp h2 rfl rfl rfl h3 rfl rfl]
            simp only [subRoot3F, hp, h2, h3, if_true]
            rw [ih]
            simp only [List.length_cons] at h
            simp only [List.length_drop]
            omega

theorem SR_run (lit1 lit2 lit3 ins s : List Char) :
    subRoot3 lit1 lit2 lit3 ins s = subRoot3F (s.length + 1) lit1 lit2 lit3 ins s :=
  (SR_exec (s.length + 1) lit1 lit2 lit3 ins s (by omega)).symm

/-- Executable twin of `aesStep1`. -/
def aesStep1F (fr : List Char) (c : List Char) : Option (List Char) :=
  match searchBlock svcHdr chLit '\x7d' ')' c with
  | none => none
  | some g => some (replaceAllF (c.length + 1) g (g ++ kidIns fr) c)

/-- Executable twin of `aesStep2`. -/
def aesStep2F (bf fr : List Char) (c : List Char) : List Char :=
  if pyIn bfMark c then replaceAllF (c.length + 1) bfMark (bfMark ++ bfEntry bf fr) c else c

/-- Executable twin of `aesStep3`. -/
def aesStep3F (fr : List Char) (c : List Char) : List Char :=
  if pyIn frBeginMark c then
    replaceAllF (c.length + 1) frBeginMark (frBeginMark ++ frEntry fr) c
  else c

/-- Executable twin of `aesStep4`. -/
def aesStep4F (bf : List Char) (c : List Char) : List Char :=
  match searchBlock srcHdr fiLit '\x7d' ')' c with
  | none => c
  | some g => replaceAllF (c.length + 1) g (g ++ srcIns bf) c

/-- Executable twin of `add_export_service`. -/
def aesRunF (fr bf c : List Char) : RunResult :=
  match aesStep1F fr c with
  | none => ⟨1, none⟩
  | some c1 => ⟨0, some (aesStep4F bf (aesStep3F fr (aesStep2F bf fr c1)))⟩

theorem aesStep1F_eq (fr c : List Char) : aesStep1 fr c = aesStep1F fr c := by
  unfold aesStep1 aesStep1F
  cases h : searchBlock svcHdr chLit '\x7d' ')' c with
  | none => rfl
  | some g => simp only [RA_run]

theorem aesStep2F_eq (bf fr c : List Char) : aesStep2 bf fr c = aesStep2F bf fr c := by
  unfold aesStep2 aesStep2F
  cases h : pyIn bfMark c with
  | false => simp [h]
  | true => simp [h, RA_run]

theorem aesStep3F_eq (fr c : List Char) : aesStep3 fr c = aesStep3F fr c := by
  unfold aesStep3 aesStep3F
  cases h : pyIn frBeginMark c with
  | false => simp [h]
  | true => simp [h, RA_run]

theorem aesStep4F_eq (bf c : List Char) : aesStep4 bf c = aesStep4F bf c := by
  unfold aesStep4 aesStep4F
  cases h : searchBlock srcHdr fiLit '\x7d' ')' c with
  | none => rfl
  | some g => simp only [RA_run]

theorem aesRunF_eq (fr bf c : List Char) : add_export_service fr bf c = aesRunF fr bf c := by
  unfold add_export_service aesRunF
  rw [aesStep1F_eq]
  cases h : aesStep1F fr c with
  | none => rfl
  | some c1 => simp only [aesStep2F_eq, aesStep3F_eq, aesStep4F_eq]

/-- Executable twin of `aesStdout`. -/
def aesStdoutF (fr bf c : List Char) : List (List Char) :=
  match aesStep1F fr c with
  | none => ["ERROR: Could not find Services group".data]
  | some _ =>
    ["Added ExportService.swift to Xcode project".data,
     "File Reference UUID: ".data ++ fr,
     "Build File UUID: ".data ++ bf]

theorem aesStdoutF_eq (fr bf c : List Char) : aesStdout fr bf c = aesStdoutF fr bf c := by
  unfold aesStdout aesStdoutF
  rw [aesStep1F_eq]

/-- Executable twin of `intStep1`. -/
def intStep1F (c : List Char) : List Char :=
  match searchSection frBeginMark frEndMark c with
  | some refs =>
    if pyIn dbgXcName refs then c
    else replaceAllF (c.length + 1) frEndMark (newRefs ++ frEndMark) c
  | none => c

/-- Executable twin of `intStep2`. -/
def intStep2F (c : List Char) : List Char :=
  match searchSection grpBeginMark grpEndMark c with
  | some groups =>
    if pyIn cfgGroupId groups then c
    else
      let c2 := replaceAllF (c.length + 1) grpEndMark (cfgGroupTxt ++ grpEndMark) c
      subRoot3F (c2.length + 1) rootLit1 rootLit2 chLit rootIns c2
  | none => c

/-- Executable twin of `integrate_xcconfig`. -/
def intRunF (c : List Char) : List Char :=
  let c1 := intStep1F c
  let c2 := intStep2F c1
  let c3 := subCfgF (c2.length + 1) dbgCfgLit xcIsaLit insD c2
  subCfgF (c3.length + 1) relCfgLit xcIsaLit insR c3

theorem intStep1F_eq (c : List Char) : intStep1 c = intStep1F c := by
  unfold intStep1 intStep1F
  cases h : searchSection frBeginMark frEndMark c with
  | none => rfl
  | some refs =>
    cases h2 : pyIn dbgXcName refs with
    | true => simp [h2]
    | false => simp [h2, RA_run]

theorem intStep2F_eq (c : List Char) : intStep2 c = intStep2F c := by
  unfold intStep2 intStep2F
  cases h : searchSection grpBeginMark grpEndMark c with
  | none => rfl
  | some groups =>
    cases h2 : pyIn cfgGroupId groups with
    | true => simp [h2]
    | false => simp [h2, RA_run, SR_run]

theorem intRunF_eq (c : List Char) : integrate_xcconfig c = intRunF c := by
  unfold integrate_xcconfig intRunF intStep3r intStep3d
  rw [intStep1F_eq, intStep2F_eq, SC_run, SC_run]

/- ------------------------------------------------------------------ -/
/- Concrete tokens and documents used by witnesses and counterexamples. -/
/- ------------------------------------------------------------------ -/

/-- A possible value of the generated file-reference token: the image
under `uuid4().hex[:24].upper()` of the hex value `hex0` below (version
nibble `'4'` at index 12, variant nibble `'8'` at index 16). -/
def frTok : List Char := "AAAA0000BBBB41118CCC2222".data

/-- A possible value of the generated build-file token, the image of the
hex value `dddd3333eeee44449fff5555…` (variant nibble `'9'`). -/
def bfTok : List Char := "DDDD3333EEEE44449FFF5555".data

/-- A small document containing only a `Services` group. -/
def c1Doc : List Char := "/* Services */ = \x7bz children = (y)".data

/-- A document with a `Services` group and a `PBXBuildFile` section
marker but no `PBXFileReference` section marker. -/
def c3Doc : List Char :=
  "/* Begin PBXBuildFile section */\n/* Services */ = \x7bz children = (y)".data

/-- The head of the `PBXFileReference` definition entry for a token. -/
def frDefHead (fr : List Char) : List Char :=
  fr ++ " /* ExportService.swift */ = \x7bisa = PBXFileReference".data

/-- The head of the `PBXBuildFile` definition entry for a token. -/
def bfDefHead (bf : List Char) : List Char :=
  bf ++ " /* ExportService.swift in Sources */ = \x7bisa = PBXBuildFile".data

/-- The file-reference pointer written into the new build-file entry. -/
def fileRefPtr (fr : List Char) : List Char :=
  "fileRef = ".data ++ (fr ++ " /* ExportService.swift */".data)

/-- Claim C2: on every document in which the `Services`-group anchor
pattern has no match, `add_export_service.py` exits with code 1 and its
storage trace contains no write: the on-disk document is untouched. -/
theorem claim_C2 (fr bf c : List Char)
    (h : searchBlock svcHdr chLit '\x7d' ')' c = none) :
    add_export_service fr bf c = ⟨1, none⟩ ∧ aesTrace fr bf c = [FsEvent.readF c] := by
  constructor
  · unfold add_export_service aesStep1
    rw [h]
  · unfold aesTrace aesStep1
    rw [h]

/-- Witness for claim C2 at a concrete document with no `Services`
group. -/
theorem claim_C2_witness :
    searchBlock svcHdr chLit '\x7d' ')' "no services group here".data = none ∧
    add_export_service frTok bfTok "no services group here".data = ⟨1, none⟩ :=
  ⟨by decide, (claim_C2 frTok bfTok _ (by decide)).1⟩

/-- Claim C6: when the file-reference section is found and already
contains `Debug.xcconfig`, the idempotence guard fires and step 1 of
`integrate_xcconfig.py` leaves the document unchanged. -/
theorem claim_C6 (c refs : List Char)
    (h1 : searchSection frBeginMark frEndMark c = some refs)
    (h2 : pyIn dbgXcName refs = true) :
    intStep1 c = c := by
  unfold intStep1
  rw [h1]
  simp [h2]

/-- Witness for claim C6: a concrete document whose file-reference
section already lists `Debug.xcconfig`. -/
theorem claim_C6_witness :
    searchSection frBeginMark frEndMark
        ("/* Begin PBXFileReference section */ x Debug.xcconfig y /* End PBXFileReference section */".data) =
      some " x Debug.xcconfig y ".data ∧
    intStep1 ("/* Begin PBXFileReference section */ x Debug.xcconfig y /* End PBXFileReference section */".data) =
      "/* Begin PBXFileReference section */ x Debug.xcconfig y /* End PBXFileReference section */".data :=
  ⟨by decide, claim_C6 _ (" x Debug.xcconfig y ".data) (by decide) (by decide)⟩

/-- Claim C9: in both scripts the storage trace has at most one write;
when a write occurs it is the last event and its payload is the result
of the complete directive sequence applied to the document that was
read, never an intermediate state. -/
theorem claim_C9 :
    (∀ fr bf c, ((aesTrace fr bf c).filter FsEvent.isWrite).length ≤ 1 ∧
      ((intTrace c).filter FsEvent.isWrite).length ≤ 1) ∧
    (∀ fr bf c w, FsEvent.writeF w ∈ aesTrace fr bf c →
      (aesTrace fr bf c).getLast? = some (FsEvent.writeF w) ∧
      ∃ c1, aesStep1 fr c = some c1 ∧
        w = aesStep4 bf (aesStep3 fr (aesStep2 bf fr c1)) ∧
        (add_export_service fr bf c).written = some w) ∧
    (∀ c w, FsEvent.writeF w ∈ intTrace c →
      (intTrace c).getLast? = some (FsEvent.writeF w) ∧
      w = intStep3r (intStep3d (intStep2 (intStep1 c)))) := by
  refine ⟨?_, ?_, ?_⟩
  · intro fr bf c
    constructor
    · unfold aesTrace
      cases h : aesStep1 fr c <;> simp [FsEvent.isWrite]
    · simp [intTrace, FsEvent.isWrite]
  · intro fr bf c w hmem
    unfold aesTrace at hmem ⊢
    cases h : aesStep1 fr c with
    | none =>
      rw [h] at hmem
      simp at hmem
    | some c1 =>
      rw [h] at hmem
      simp only [List.mem_cons, List.not_mem_nil, or_false, FsEvent.writeF.injEq] at hmem
      rcases hmem with hmem | hmem
      · exact absurd hmem (by simp)
      · subst hmem
        refine ⟨by simp, c1, rfl, rfl, ?_⟩
        unfold add_export_service
        rw [h]
  · intro c w hmem
    unfold intTrace at hmem ⊢
    simp only [List.mem_cons, List.not_mem_nil, or_false, FsEvent.writeF.injEq] at hmem
    rcases hmem with hmem | hmem
    · exact absurd hmem (by simp)
    · subst hmem
      exact ⟨by simp, rfl⟩

/-- Witness for claim C9 at a concrete run that writes. -/
theorem claim_C9_witness :
    FsEvent.writeF (integrate_xcconfig "x".data) ∈ intTrace "x".data ∧
    (intTrace "x".data).getLast? = some (FsEvent.writeF (integrate_xcconfig "x".data)) :=
  ⟨by simp [intTrace], (claim_C9.2.2 "x".data (integrate_xcconfig "x".data)
    (by simp [intTrace])).1⟩

/-- Claim C8: the patching is insertion-only.  Every byte of the input
document survives, in order, into the written output (the original is a
sublist of the result), and each `str.replace`-based directive is
exactly the spec's splicer: it inserts the rendered text immediately
adjacent to each occurrence of the anchor text and preserves all other
bytes verbatim. -/
theorem claim_C8 :
    (∀ fr bf c : List Char, c.Sublist ((add_export_service fr bf c).written.getD c)) ∧
    (∀ c : List Char, c.Sublist (integrate_xcconfig c)) ∧
    (∀ anchor ins s, replaceAll anchor (anchor ++ ins) s = insertAfterEach anchor ins s) ∧
    (∀ anchor ins s, replaceAll anchor (ins ++ anchor) s = insertBeforeEach anchor ins s) := by
  have h2 : ∀ bf fr d : List Char, d.Sublist (aesStep2 bf fr d) := by
    intro bf fr d
    unfold aesStep2
    cases hpy : pyIn bfMark d with
    | false => simp
    | true =>
      simp only [if_true]
      exact RA_sublist _ _ _ (List.sublist_append_left _ _)
  have h3 : ∀ fr d : List Char, d.Sublist (aesStep3 fr d) := by
    intro fr d
    unfold aesStep3
    cases hpy : pyIn frBeginMark d with
    | false => simp
    | true =>
      simp only [if_true]
      exact RA_sublist _ _ _ (List.sublist_append_left _ _)
  have h4 : ∀ bf d : List Char, d.Sublist (aesStep4 bf d) := by
    intro bf d
    unfold aesStep4
    cases hsb : searchBlock srcHdr fiLit '\x7d' ')' d with
    | none => exact List.Sublist.refl d
    | some g => exact RA_sublist _ _ _ (List.sublist_append_left _ _)
  refine ⟨?_, ?_, ?_, ?_⟩
  case refine_3 => exact RA_eq_insertAfter
  case refine_4 => exact RA_eq_insertBefore
  · intro fr bf c
    unfold add_export_service
    cases h1 : aesStep1 fr c with
    | none => simp
    | some c1 =>
      have hs1 : c.Sublist c1 := by
        unfold aesStep1 at h1
        cases hsb : searchBlock svcHdr chLit '\x7d' ')' c with
        | none => rw [hsb] at h1; simp at h1
        | some g =>
          rw [hsb] at h1
          simp only [Option.some.injEq] at h1
          subst h1
          exact RA_sublist _ _ _ (List.sublist_append_left g (kidIns fr))
      simp only [Option.getD_some]
      exact hs1.trans ((h2 bf fr c1).trans ((h3 fr _).trans (h4 bf _)))
  · intro c
    unfold integrate_xcconfig intStep3r intStep3d
    have i1 : ∀ d : List Char, d.Sublist (intStep1 d) := by
      intro d
      unfold intStep1
      cases hs : searchSection frBeginMark frEndMark d with
      | none => exact List.Sublist.refl d
      | some refs =>
        cases hpy : pyIn dbgXcName refs with
        | true => simp [hpy]
        | false =>
          simp only [hpy, Bool.false_eq_true, if_false]
          exact RA_sublist _ _ _ (List.sublist_append_right newRefs frEndMark)
    have i2 : ∀ d : List Char, d.Sublist (intStep2 d) := by
      intro d
      unfold intStep2
      cases hs : searchSection grpBeginMark grpEndMark d with
      | none => exact List.Sublist.refl d
      | some groups =>
        cases hpy : pyIn cfgGroupId groups with
        | true => simp [hpy]
        | false =>
          simp only [hpy, Bool.false_eq_true, if_false]
          exact (RA_sublist _ _ _ (List.sublist_append_right cfgGroupTxt grpEndMark)).trans
            (SR_sublist _ _ _ _ _)
    exact (i1 c).trans ((i2 _).trans ((SC_sublist _ _ _ _).trans (SC_sublist _ _ _ _)))

/-- The `Services` match text of the duplicated-anchor document. -/
def dupG : List Char := "/* Services */ = \x7bq children = (m".data

/-- A document in which the matched anchor text occurs at two positions. -/
def dupDoc : List Char := dupG ++ ");\x7dZ".data ++ dupG ++ ");\x7d".data

/-- Claim C10: `add_export_service.py` splices with whole-string
`str.replace` rather than positional splicing: when the matched anchor
text occurs at exactly one position, the insertion lands only there, and
there is a document in which the matched text occurs twice and the
insertion is spliced at both occurrences. -/
theorem claim_C10 :
    (∀ fr c g A B : List Char, searchBlock svcHdr chLit '\x7d' ')' c = some g →
      c = A ++ (g ++ B) → countOcc g c = 1 →
      aesStep1 fr c = some (A ++ (g ++ (kidIns fr ++ B)))) ∧
    (countOcc dupG dupDoc = 2 ∧
      aesStep1 frTok dupDoc =
        some (dupG ++ kidIns frTok ++ ");\x7dZ".data ++ dupG ++ kidIns frTok ++ ");\x7d".data)) := by
  constructor
  · intro fr c g A B hsearch hdecomp hcnt
    have hne : g ≠ [] := by
      obtain ⟨X, rfl⟩ := SB_shape hsearch
      intro hc
      rw [List.append_eq_nil] at hc
      have : svcHdr = [] := hc.1
      exact absurd this (by decide)
    subst hdecomp
    unfold aesStep1
    rw [hsearch]
    have hcnt' : countOcc g ((A ++ g) ++ B) = 1 := by
      rw [List.append_assoc]
      exact hcnt
    have hra := @RA_single g (g ++ kidIns fr) A B hne hcnt'
    simp only [← List.append_assoc]
    rw [hra]
    simp [List.append_assoc]
  · constructor
    · decide
    · rw [aesStep1F_eq]
      decide

/-- Witness for the single-occurrence part of claim C10 at `c1Doc`. -/
theorem claim_C10_witness :
    searchBlock svcHdr chLit '\x7d' ')' c1Doc = some "/* Services */ = \x7bz children = (y".data ∧
    aesStep1 frTok c1Doc =
      some ([] ++ ("/* Services */ = \x7bz children = (y".data ++ (kidIns frTok ++ ")".data))) := by
  constructor
  · decide
  · exact claim_C10.1 frTok c1Doc _ [] ")".data (by decide) (by decide) (by decide)

/-- Counterexample to claim C1 as stated: on `c1Doc` the first run of
`add_export_service.py` succeeds, and a second run on its own output
produces a different (larger) document — the directive sequence is not
idempotent, because the script has no idempotence guard. -/
theorem claim_C1_cex :
    (add_export_service frTok bfTok c1Doc).exitCode = 0 ∧
    (add_export_service frTok bfTok
        ((add_export_service frTok bfTok c1Doc).written.getD [])).written ≠
      some ((add_export_service frTok bfTok c1Doc).written.getD []) := by
  simp only [aesRunF_eq]
  decide

/-- Amended claim C1: `add_export_service.py` is not idempotent.
Whenever a second run on a previously written document completes
successfully (exit code 0), it splices its entries again and the written
document strictly grows. -/
theorem claim_C1_amended (fr bf fr2 bf2 c c1 : List Char)
    (_h1 : add_export_service fr bf c = ⟨0, some c1⟩)
    (h2 : (add_export_service fr2 bf2 c1).exitCode = 0) :
    ∃ c2, (add_export_service fr2 bf2 c1).written = some c2 ∧ c1.length < c2.length := by
  cases hs : aesStep1 fr2 c1 with
  | none =>
    exfalso
    unfold add_export_service at h2
    rw [hs] at h2
    simp at h2
  | some d1 =>
    have hgrow : c1.length < d1.length := by
      unfold aesStep1 at hs
      cases hsb : searchBlock svcHdr chLit '\x7d' ')' c1 with
      | none => rw [hsb] at hs; simp at hs
      | some g =>
        rw [hsb] at hs
        simp only [Option.some.injEq] at hs
        subst hs
        have hne : g ≠ [] := by
          obtain ⟨X, rfl⟩ := SB_shape hsb
          intro hc
          rw [List.append_eq_nil] at hc
          exact absurd hc.1 (by decide)
        have hocc : 0 < countOcc g c1 := by
          obtain ⟨p, hp⟩ := SB_occurs hsb
          exact countOcc_pos hp
        refine RA_strict g (g ++ kidIns fr2) c1 hne
          (List.sublist_append_left g (kidIns fr2)) ?_ hocc
        have : 0 < (kidIns fr2).length := by
          unfold kidIns
          simp
        simp only [List.length_append]
        omega
    have hmono2 : d1.length ≤ (aesStep2 bf2 fr2 d1).length := by
      unfold aesStep2
      cases hpy : pyIn bfMark d1 with
      | false => simp
      | true =>
        simp only [if_true]
        exact (RA_sublist _ _ _ (List.sublist_append_left _ _)).length_le
    have hmono3 : (aesStep2 bf2 fr2 d1).length ≤ (aesStep3 fr2 (aesStep2 bf2 fr2 d1)).length := by
      unfold aesStep3
      cases hpy : pyIn frBeginMark (aesStep2 bf2 fr2 d1) with
      | false => simp
      | true =>
        simp only [if_true]
        exact (RA_sublist _ _ _ (List.sublist_append_left _ _)).length_le
    have hmono4 : (aesStep3 fr2 (aesStep2 bf2 fr2 d1)).length ≤
        (aesStep4 bf2 (aesStep3 fr2 (aesStep2 bf2 fr2 d1))).length := by
      unfold aesStep4
      cases hsb : searchBlock srcHdr fiLit '\x7d' ')' (aesStep3 fr2 (aesStep2 bf2 fr2 d1)) with
      | none => simp
      | some g => exact (RA_sublist _ _ _ (List.sublist_append_left _ _)).length_le
    refine ⟨aesStep4 bf2 (aesStep3 fr2 (aesStep2 bf2 fr2 d1)), ?_, by omega⟩
    unfold add_export_service
    rw [hs]

/-- Witness for the amended claim C1, applied to the concrete first-run
output of `c1Doc`. -/
theorem claim_C1_witness :
    ∃ c2, (add_export_service frTok bfTok
        ((add_export_service frTok bfTok c1Doc).written.getD [])).written = some c2 ∧
      ((add_export_service frTok bfTok c1Doc).written.getD []).length < c2.length :=
  claim_C1_amended frTok bfTok frTok bfTok c1Doc _
    (by simp only [aesRunF_eq]; decide) (by simp only [aesRunF_eq]; decide)

/-- A lowercase-hex character of the descriptor token alphabet. -/
def lowHexOk (c : Char) : Bool := c ∈ lowHexChars

/-- An uppercase-hex character of the descriptor token alphabet. -/
def upHexOk (c : Char) : Bool := c ∈ upHexChars

/-- A concrete possible value of `uuid.uuid4().hex`: lowercase hex with
the forced version nibble `'4'` at index 12 and variant nibble `'8'` at
index 16. -/
def hex0 : List Char := "aaaa0000bbbb41118ccc2222dddddddd".data

/-- A document that already uses the identifier the generator will
produce from `hex0`, as the key of an existing file-reference entry. -/
def c4Doc : List Char :=
  frBeginMark ++
    "\n\t\tAAAA0000BBBB41118CCC2222 /* Old.swift */ = \x7bisa = PBXFileReference; \x7d;\n".data ++
    "/* Services */ = \x7bz children = (y)".data

/-- Counterexample to claim C4 as stated: the generator performs no
uniqueness check.  `hex0` is a possible `uuid4().hex` value (lowercase
hex, version nibble `'4'`, variant nibble `'8'`),
its token already occurs in `c4Doc` as an existing entry identifier, and
after patching the output contains two distinct definition entries keyed
by the same identifier — identifiers are not pairwise distinct. -/
theorem claim_C4_cex :
    hexOk hex0 = true ∧
    mkToken hex0 = frTok ∧
    pyIn frTok c4Doc = true ∧
    pyIn (frTok ++ " /* Old.swift */ = \x7bisa = PBXFileReference".data)
        ((add_export_service (mkToken hex0) bfTok c4Doc).written.getD []) = true ∧
    pyIn (frDefHead (mkToken hex0))
        ((add_export_service (mkToken hex0) bfTok c4Doc).written.getD []) = true := by
  simp only [aesRunF_eq]
  decide

theorem all_take {p : Char → Bool} {l : List Char} (n : Nat) (h : l.all p = true) :
    (l.take n).all p = true := by
  rw [List.all_eq_true] at h ⊢
  intro x hx
  exact h x (List.mem_of_mem_take hx)

theorem upper_of_lower {c : Char} (h : lowHexOk c = true) :
    upHexOk (pyUpperChar c) = true := by
  unfold lowHexOk at h
  have hc : c ∈ lowHexChars := of_decide_eq_true h
  have hall : ∀ x ∈ lowHexChars, upHexOk (pyUpperChar x) = true := by decide
  exact hall c hc

/-- Amended claim C4: the generator guarantees only the lexical format,
not uniqueness: for every possible `uuid4().hex` value the token is a
fixed-width 24-character uppercase-hex string; it is checked against
nothing, so uniqueness holds only when the sampled value happens to
avoid the document's existing identifiers (see the counterexample). -/
theorem claim_C4_amended (h : List Char) (hh : hexOk h = true) :
    (mkToken h).length = 24 ∧ (mkToken h).all upHexOk = true := by
  unfold hexOk at hh
  simp only [Bool.and_eq_true] at hh
  obtain ⟨⟨⟨hlen, hall⟩, _⟩, _⟩ := hh
  have hlen' : h.length = 32 := by
    simpa using hlen
  constructor
  · simp [mkToken, List.length_map, List.length_take, hlen']
  · unfold mkToken
    rw [List.all_map, List.all_eq_true]
    intro x hx
    have hx' : lowHexOk x = true := by
      have := all_take 24 hall
      rw [List.all_eq_true] at this
      have h2 := this x hx
      have h3 : ∀ y ∈ h, lowHexOk y = true := by
        rw [List.all_eq_true] at hall
        intro y hy
        have := hall y hy
        unfold lowHexOk
        exact this
      exact h3 x (List.mem_of_mem_take hx)
    exact upper_of_lower hx'

/-- Witness for the amended claim C4 at the concrete hex value. -/
theorem claim_C4_witness :
    hexOk hex0 = true ∧ ((mkToken hex0).length = 24 ∧ (mkToken hex0).all upHexOk = true) :=
  ⟨by decide, claim_C4_amended hex0 (by decide)⟩

/-- Counterexample to claim C3 as stated: on a document where the
`PBXFileReference` section marker is absent, the run still succeeds and
still inserts the build-file entry whose `fileRef` points at the
generated identifier, but no file-reference definition for that
identifier exists anywhere in the output: referential integrity is
violated exactly in the case the claim says it covers. -/
theorem claim_C3_cex :
    pyIn frBeginMark c3Doc = false ∧
    (add_export_service frTok bfTok c3Doc).exitCode = 0 ∧
    pyIn (fileRefPtr frTok) ((add_export_service frTok bfTok c3Doc).written.getD []) = true ∧
    pyIn (frDefHead frTok) ((add_export_service frTok bfTok c3Doc).written.getD []) = false := by
  simp only [aesRunF_eq]
  decide

theorem countOcc_nil (s : List Char) : countOcc [] s = s.length + 1 := by
  induction s with
  | nil => simp [countOcc, List.isPrefixOf]
  | cons c rest ih =>
    simp [countOcc, List.isPrefixOf, ih]
    omega

theorem countOcc_le_left (pat Y X : List Char) :
    countOcc pat Y ≤ countOcc pat (Y ++ X) := by
  induction Y with
  | nil =>
    cases pat with
    | nil => simp [countOcc_nil]
    | cons p ps => simp [countOcc, List.isPrefixOf]
  | cons c r ih =>
    simp only [List.cons_append, countOcc, List.append_eq]
    have hmono : (if pat.isPrefixOf (c :: r) then 1 else 0) ≤
        (if pat.isPrefixOf (c :: (r ++ X)) then 1 else 0) := by
      cases hp : pat.isPrefixOf (c :: r) with
      | false => simp
      | true =>
        have := pfx_extend X hp
        simp only [List.cons_append] at this
        simp [this]
    omega

theorem pyIn_append_right {pat Y : List Char} (X : List Char)
    (h : pyIn pat Y = true) : pyIn pat (Y ++ X) = true := by
  rw [pyIn_iff] at h ⊢
  have := countOcc_le_left pat Y X
  omega

theorem pyIn_append_left {pat Y : List Char} (X : List Char)
    (h : pyIn pat Y = true) : pyIn pat (X ++ Y) = true := by
  rw [pyIn_iff] at h ⊢
  have := countOcc_ge_right pat X Y
  omega

theorem SC_single2 (lit1 lit2 ins A w R : List Char) (h1 : lit1 ≠ [])
    (hw : ∀ c ∈ w, pyIsSpace c = true)
    (hm : ∃ m ms, lit2 = m :: ms ∧ pyIsSpace m = false)
    (hcnt : countOcc lit1 (A ++ (lit1 ++ (w ++ (lit2 ++ R)))) = 1) :
    subCfg lit1 lit2 ins (A ++ (lit1 ++ (w ++ (lit2 ++ R)))) =
      A ++ (lit1 ++ (w ++ (lit2 ++ (ins ++ R)))) := by
  obtain ⟨l, ls, rfl⟩ := List.exists_cons_of_ne_nil h1
  obtain ⟨m, ms, rfl, hm0⟩ := hm
  exact SC_single ins A w R hw hm0 hcnt

theorem pyIn_head (pat Y : List Char) : pyIn pat (pat ++ Y) = true := by
  have h0 := pyIn_mid pat [] Y
  simpa using h0

/-- The document tail of the canonical four-anchor family: the text from
the `Sources` block on. -/
def aesTail (D E a2 : List Char) (kh2 : Char) (kt2 : List Char) : List Char :=
  D ++ (srcHdr ++ (a2 ++ (fiLit ++ ((kh2 :: kt2) ++ ([')', ';', '\x7d'] ++ E)))))

/-- A document containing all four anchors of `add_export_service.py`,
with arbitrary filler text between them. -/
def aesDoc (A B C D E a1 a2 : List Char) (kh kh2 : Char) (kt kt2 : List Char) : List Char :=
  A ++ (bfMark ++ (B ++ (frBeginMark ++ (C ++ (svcHdr ++ (a1 ++ (chLit ++ ((kh :: kt) ++
    ([')', ';', '\x7d'] ++ aesTail D E a2 kh2 kt2)))))))))

/-- The text matched by the `Services` anchor pattern on `aesDoc`. -/
def aesG1 (a1 k1 : List Char) : List Char := svcHdr ++ (a1 ++ (chLit ++ k1))

/-- The text matched by the `Sources` anchor pattern. -/
def aesG4 (a2 k2 : List Char) : List Char := srcHdr ++ (a2 ++ (fiLit ++ k2))

/-- `aesDoc` after directive 1 (the `Services` child insertion). -/
def aesMid1 (fr A B C D E a1 a2 : List Char) (kh kh2 : Char) (kt kt2 : List Char) : List Char :=
  A ++ (bfMark ++ (B ++ (frBeginMark ++ (C ++ (svcHdr ++ (a1 ++ (chLit ++ ((kh :: kt) ++
    (kidIns fr ++ ([')', ';', '\x7d'] ++ aesTail D E a2 kh2 kt2))))))))))

/-- `aesDoc` after directives 1 and 2. -/
def aesMid2 (fr bf A B C D E a1 a2 : List Char) (kh kh2 : Char) (kt kt2 : List Char) : List Char :=
  A ++ (bfMark ++ (bfEntry bf fr ++ (B ++ (frBeginMark ++ (C ++ (svcHdr ++ (a1 ++ (chLit ++
    ((kh :: kt) ++ (kidIns fr ++ ([')', ';', '\x7d'] ++ aesTail D E a2 kh2 kt2)))))))))))

/-- `aesDoc` after directives 1 through 3. -/
def aesMid3 (fr bf A B C D E a1 a2 : List Char) (kh kh2 : Char) (kt kt2 : List Char) : List Char :=
  A ++ (bfMark ++ (bfEntry bf fr ++ (B ++ (frBeginMark ++ (frEntry fr ++ (C ++ (svcHdr ++
    (a1 ++ (chLit ++ ((kh :: kt) ++ (kidIns fr ++ ([')', ';', '\x7d'] ++
    aesTail D E a2 kh2 kt2))))))))))))

/-- `aesDoc` after all four directives: the document that is written. -/
def aesOut (fr bf A B C D E a1 a2 : List Char) (kh kh2 : Char) (kt kt2 : List Char) : List Char :=
  A ++ (bfMark ++ (bfEntry bf fr ++ (B ++ (frBeginMark ++ (frEntry fr ++ (C ++ (svcHdr ++
    (a1 ++ (chLit ++ ((kh :: kt) ++ (kidIns fr ++ ([')', ';', '\x7d'] ++ (D ++ (srcHdr ++
    (a2 ++ (fiLit ++ ((kh2 :: kt2) ++ (srcIns bf ++ ([')', ';', '\x7d'] ++ E)))))))))))))))))))

/-- Amended claim C3: referential integrity holds when all four section
anchors are present.  On every document of the canonical four-anchor
shape (each anchor text occurring exactly once at each stage of the
run), the run exits 0, writes `aesOut`, and in the written document the
generated file-reference identifier is defined by a `PBXFileReference`
entry and the build-file identifier by a `PBXBuildFile` entry, so the
`fileRef` pointer of the new build-file entry and the new `Services`
child both refer to entries that exist.  (As stated — covering documents
where the `PBXFileReference` marker is absent — the claim is false; see
the counterexample.) -/
theorem claim_C3_amended (fr bf A B C D E a1 a2 : List Char) (kh kh2 : Char)
    (kt kt2 : List Char)
    (ha1ne : a1 ≠ []) (ha1 : ∀ c ∈ a1, notChar '\x7d' c = true)
    (hk7 : ∀ c ∈ (kh :: kt), notChar '\x7d' c = true)
    (hk9 : ∀ c ∈ (kh :: kt), notChar ')' c = true)
    (ha2ne : a2 ≠ []) (ha2 : ∀ c ∈ a2, notChar '\x7d' c = true)
    (hq7 : ∀ c ∈ (kh2 :: kt2), notChar '\x7d' c = true)
    (hq9 : ∀ c ∈ (kh2 :: kt2), notChar ')' c = true)
    (hsvc1 : countOcc svcHdr (aesDoc A B C D E a1 a2 kh kh2 kt kt2) = 1)
    (hch1 : countOcc chLit (chLit ++ ((kh :: kt) ++
      ([')', ';', '\x7d'] ++ aesTail D E a2 kh2 kt2))) = 1)
    (hg1c : countOcc (aesG1 a1 (kh :: kt)) (aesDoc A B C D E a1 a2 kh kh2 kt kt2) = 1)
    (hbfc : countOcc bfMark (aesMid1 fr A B C D E a1 a2 kh kh2 kt kt2) = 1)
    (hfrc : countOcc frBeginMark (aesMid2 fr bf A B C D E a1 a2 kh kh2 kt kt2) = 1)
    (hsrc1 : countOcc srcHdr (aesMid3 fr bf A B C D E a1 a2 kh kh2 kt kt2) = 1)
    (hfi1 : countOcc fiLit (fiLit ++ ((kh2 :: kt2) ++ ([')', ';', '\x7d'] ++ E))) = 1)
    (hg4c : countOcc (aesG4 a2 (kh2 :: kt2))
      (aesMid3 fr bf A B C D E a1 a2 kh kh2 kt kt2) = 1) :
    add_export_service fr bf (aesDoc A B C D E a1 a2 kh kh2 kt kt2) =
      ⟨0, some (aesOut fr bf A B C D E a1 a2 kh kh2 kt kt2)⟩ ∧
    pyIn (fileRefPtr fr) (aesOut fr bf A B C D E a1 a2 kh kh2 kt kt2) = true ∧
    pyIn (frDefHead fr) (aesOut fr bf A B C D E a1 a2 kh kh2 kt kt2) = true ∧
    pyIn (bfDefHead bf) (aesOut fr bf A B C D E a1 a2 kh kh2 kt kt2) = true := by
  -- step 1: the Services anchor search and splice
  have hd1 : aesDoc A B C D E a1 a2 kh kh2 kt kt2 =
      (A ++ (bfMark ++ (B ++ (frBeginMark ++ C)))) ++ (svcHdr ++ (a1 ++ (chLit ++
        ((kh :: kt) ++ ([')', ';', '\x7d'] ++ aesTail D E a2 kh2 kt2))))) := by
    unfold aesDoc
    simp only [List.append_assoc]
  have hsvc1' : countOcc svcHdr ((A ++ (bfMark ++ (B ++ (frBeginMark ++ C)))) ++
      (svcHdr ++ (a1 ++ (chLit ++ ((kh :: kt) ++
        ([')', ';', '\x7d'] ++ aesTail D E a2 kh2 kt2)))))) = 1 := by
    rw [← hd1]
    exact hsvc1
  have hsb := SB_found svcHdr chLit (A ++ (bfMark ++ (B ++ (frBeginMark ++ C)))) a1
    (aesTail D E a2 kh2 kt2) kh kt (by decide) (by decide) ha1ne ha1
    (by decide) hk7 hk9 hsvc1' hch1
  have hsearch : searchBlock svcHdr chLit '\x7d' ')'
      (aesDoc A B C D E a1 a2 kh kh2 kt kt2) = some (aesG1 a1 (kh :: kt)) := by
    rw [hd1]
    unfold aesG1
    exact hsb
  have hg1ne : aesG1 a1 (kh :: kt) ≠ [] := by
    unfold aesG1
    intro hc
    rw [List.append_eq_nil] at hc
    exact absurd hc.1 (by decide)
  have hd2 : aesDoc A B C D E a1 a2 kh kh2 kt kt2 =
      (A ++ (bfMark ++ (B ++ (frBeginMark ++ C)))) ++ aesG1 a1 (kh :: kt) ++
        ([')', ';', '\x7d'] ++ aesTail D E a2 kh2 kt2) := by
    unfold aesDoc aesG1
    simp only [List.append_assoc]
  have hg1c' : countOcc (aesG1 a1 (kh :: kt))
      ((A ++ (bfMark ++ (B ++ (frBeginMark ++ C)))) ++ aesG1 a1 (kh :: kt) ++
        ([')', ';', '\x7d'] ++ aesTail D E a2 kh2 kt2)) = 1 := by
    rw [← hd2]
    exact hg1c
  have hstep1 : aesStep1 fr (aesDoc A B C D E a1 a2 kh kh2 kt kt2) =
      some (aesMid1 fr A B C D E a1 a2 kh kh2 kt kt2) := by
    unfold aesStep1
    rw [hsearch]
    show some (replaceAll (aesG1 a1 (kh :: kt)) (aesG1 a1 (kh :: kt) ++ kidIns fr)
        (aesDoc A B C D E a1 a2 kh kh2 kt kt2)) =
      some (aesMid1 fr A B C D E a1 a2 kh kh2 kt kt2)
    rw [hd2, RA_single (aesG1 a1 (kh :: kt) ++ kidIns fr) _ _ hg1ne hg1c']
    unfold aesMid1 aesG1
    simp [List.append_assoc]
  -- step 2: the PBXBuildFile entry
  have hpy2 : pyIn bfMark (aesMid1 fr A B C D E a1 a2 kh kh2 kt kt2) = true := by
    rw [pyIn_iff]
    omega
  have hd3 : aesMid1 fr A B C D E a1 a2 kh kh2 kt kt2 =
      A ++ bfMark ++ (B ++ (frBeginMark ++ (C ++ (svcHdr ++ (a1 ++ (chLit ++ ((kh :: kt) ++
        (kidIns fr ++ ([')', ';', '\x7d'] ++ aesTail D E a2 kh2 kt2))))))))) := by
    unfold aesMid1
    simp only [List.append_assoc]
  have hbfc' : countOcc bfMark (A ++ bfMark ++ (B ++ (frBeginMark ++ (C ++ (svcHdr ++
      (a1 ++ (chLit ++ ((kh :: kt) ++ (kidIns fr ++
        ([')', ';', '\x7d'] ++ aesTail D E a2 kh2 kt2)))))))))) = 1 := by
    rw [← hd3]
    exact hbfc
  have hstep2 : aesStep2 bf fr (aesMid1 fr A B C D E a1 a2 kh kh2 kt kt2) =
      aesMid2 fr bf A B C D E a1 a2 kh kh2 kt kt2 := by
    unfold aesStep2
    rw [hpy2]
    simp only [if_true]
    rw [hd3, RA_single (bfMark ++ bfEntry bf fr) _ _ (by decide) hbfc']
    unfold aesMid2
    simp [List.append_assoc]
  -- step 3: the PBXFileReference entry
  have hpy3 : pyIn frBeginMark (aesMid2 fr bf A B C D E a1 a2 kh kh2 kt kt2) = true := by
    rw [pyIn_iff]
    omega
  have hd4 : aesMid2 fr bf A B C D E a1 a2 kh kh2 kt kt2 =
      (A ++ (bfMark ++ (bfEntry bf fr ++ B))) ++ frBeginMark ++ (C ++ (svcHdr ++ (a1 ++
        (chLit ++ ((kh :: kt) ++ (kidIns fr ++
          ([')', ';', '\x7d'] ++ aesTail D E a2 kh2 kt2))))))) := by
    unfold aesMid2
    simp only [List.append_assoc]
  have hfrc' : countOcc frBeginMark ((A ++ (bfMark ++ (bfEntry bf fr ++ B))) ++ frBeginMark ++
      (C ++ (svcHdr ++ (a1 ++ (chLit ++ ((kh :: kt) ++ (kidIns fr ++
        ([')', ';', '\x7d'] ++ aesTail D E a2 kh2 kt2)))))))) = 1 := by
    rw [← hd4]
    exact hfrc
  have hstep3 : aesStep3 fr (aesMid2 fr bf A B C D E a1 a2 kh kh2 kt kt2) =
      aesMid3 fr bf A B C D E a1 a2 kh kh2 kt kt2 := by
    unfold aesStep3
    rw [hpy3]
    simp only [if_true]
    rw [hd4, RA_single (frBeginMark ++ frEntry fr) _ _ (by decide) hfrc']
    unfold aesMid3
    simp [List.append_assoc]
  -- step 4: the Sources entry
  have hd5 : aesMid3 fr bf A B C D E a1 a2 kh kh2 kt kt2 =
      (A ++ (bfMark ++ (bfEntry bf fr ++ (B ++ (frBeginMark ++ (frEntry fr ++ (C ++ (svcHdr ++
        (a1 ++ (chLit ++ ((kh :: kt) ++ (kidIns fr ++ ([')', ';', '\x7d'] ++ D))))))))))))) ++
      (srcHdr ++ (a2 ++ (fiLit ++ ((kh2 :: kt2) ++ ([')', ';', '\x7d'] ++ E))))) := by
    unfold aesMid3 aesTail
    simp only [List.append_assoc]
  have hsrc1' : countOcc srcHdr ((A ++ (bfMark ++ (bfEntry bf fr ++ (B ++ (frBeginMark ++
      (frEntry fr ++ (C ++ (svcHdr ++ (a1 ++ (chLit ++ ((kh :: kt) ++ (kidIns fr ++
        ([')', ';', '\x7d'] ++ D))))))))))))) ++
      (srcHdr ++ (a2 ++ (fiLit ++ ((kh2 :: kt2) ++ ([')', ';', '\x7d'] ++ E)))))) = 1 := by
    rw [← hd5]
    exact hsrc1
  have hsb4 := SB_found srcHdr fiLit (A ++ (bfMark ++ (bfEntry bf fr ++ (B ++ (frBeginMark ++
      (frEntry fr ++ (C ++ (svcHdr ++ (a1 ++ (chLit ++ ((kh :: kt) ++ (kidIns fr ++
        ([')', ';', '\x7d'] ++ D))))))))))))) a2 E kh2 kt2 (by decide) (by decide) ha2ne ha2
    (by decide) hq7 hq9 hsrc1' hfi1
  have hsearch4 : searchBlock srcHdr fiLit '\x7d' ')'
      (aesMid3 fr bf A B C D E a1 a2 kh kh2 kt kt2) = some (aesG4 a2 (kh2 :: kt2)) := by
    rw [hd5]
    unfold aesG4
    exact hsb4
  have hg4ne : aesG4 a2 (kh2 :: kt2) ≠ [] := by
    unfold aesG4
    intro hc
    rw [List.append_eq_nil] at hc
    exact absurd hc.1 (by decide)
  have hd6 : aesMid3 fr bf A B C D E a1 a2 kh kh2 kt kt2 =
      (A ++ (bfMark ++ (bfEntry bf fr ++ (B ++ (frBeginMark ++ (frEntry fr ++ (C ++ (svcHdr ++
        (a1 ++ (chLit ++ ((kh :: kt) ++ (kidIns fr ++ ([')', ';', '\x7d'] ++ D))))))))))))) ++
      aesG4 a2 (kh2 :: kt2) ++ ([')', ';', '\x7d'] ++ E) := by
    unfold aesMid3 aesTail aesG4
    simp only [List.append_assoc]
  have hg4c' : countOcc (aesG4 a2 (kh2 :: kt2)) ((A ++ (bfMark ++ (bfEntry bf fr ++ (B ++
      (frBeginMark ++ (frEntry fr ++ (C ++ (svcHdr ++ (a1 ++ (chLit ++ ((kh :: kt) ++
        (kidIns fr ++ ([')', ';', '\x7d'] ++ D))))))))))))) ++
      aesG4 a2 (kh2 :: kt2) ++ ([')', ';', '\x7d'] ++ E)) = 1 := by
    rw [← hd6]
    exact hg4c
  have hstep4 : aesStep4 bf (aesMid3 fr bf A B C D E a1 a2 kh kh2 kt kt2) =
      aesOut fr bf A B C D E a1 a2 kh kh2 kt kt2 := by
    unfold aesStep4
    rw [hsearch4]
    show replaceAll (aesG4 a2 (kh2 :: kt2)) (aesG4 a2 (kh2 :: kt2) ++ srcIns bf)
        (aesMid3 fr bf A B C D E a1 a2 kh kh2 kt kt2) =
      aesOut fr bf A B C D E a1 a2 kh kh2 kt kt2
    rw [hd6, RA_single (aesG4 a2 (kh2 :: kt2) ++ srcIns bf) _ _ hg4ne hg4c']
    unfold aesOut aesG4
    simp [List.append_assoc]
  refine ⟨?_, ?_, ?_, ?_⟩
  · unfold add_export_service
    rw [hstep1]
    show RunResult.mk 0 (some (aesStep4 bf (aesStep3 fr (aesStep2 bf fr
        (aesMid1 fr A B C D E a1 a2 kh kh2 kt kt2))))) =
      RunResult.mk 0 (some (aesOut fr bf A B C D E a1 a2 kh kh2 kt kt2))
    rw [hstep2, hstep3, hstep4]
  · -- the build-file entry's fileRef pointer occurs in the output
    have hsplit : bfEntry bf fr = ("\n\t\t".data ++ (bf ++
        " /* ExportService.swift in Sources */ = \x7bisa = PBXBuildFile; ".data)) ++
        (fileRefPtr fr ++ "; \x7d;".data) := by
      unfold bfEntry fileRefPtr
      rw [show " /* ExportService.swift in Sources */ = \x7bisa = PBXBuildFile; fileRef = ".data =
        " /* ExportService.swift in Sources */ = \x7bisa = PBXBuildFile; ".data ++
          "fileRef = ".data from rfl]
      rw [show " /* ExportService.swift */; \x7d;".data =
        " /* ExportService.swift */".data ++ "; \x7d;".data from rfl]
      simp [List.append_assoc]
    have hin : pyIn (fileRefPtr fr) (bfEntry bf fr) = true := by
      rw [hsplit]
      exact pyIn_append_left _ (pyIn_head _ _)
    unfold aesOut
    exact pyIn_append_left A (pyIn_append_left bfMark (pyIn_append_right _ hin))
  · -- the file-reference identifier is defined in the output
    have hsplit : frEntry fr = "\n\t\t".data ++ (frDefHead fr ++
        "; lastKnownFileType = sourcecode.swift; path = ExportService.swift; sourceTree = \"<group>\"; \x7d;".data) := by
      unfold frEntry frDefHead
      rw [show " /* ExportService.swift */ = \x7bisa = PBXFileReference; lastKnownFileType = sourcecode.swift; path = ExportService.swift; sourceTree = \"<group>\"; \x7d;".data =
        " /* ExportService.swift */ = \x7bisa = PBXFileReference".data ++
          "; lastKnownFileType = sourcecode.swift; path = ExportService.swift; sourceTree = \"<group>\"; \x7d;".data from rfl]
      simp [List.append_assoc]
    have hin : pyIn (frDefHead fr) (frEntry fr) = true := by
      rw [hsplit]
      exact pyIn_append_left _ (pyIn_head _ _)
    unfold aesOut
    exact pyIn_append_left A (pyIn_append_left bfMark (pyIn_append_left (bfEntry bf fr)
      (pyIn_append_left B (pyIn_append_left frBeginMark (pyIn_append_right _ hin)))))
  · -- the build-file identifier is defined in the output
    have hsplit : bfEntry bf fr = "\n\t\t".data ++ (bfDefHead bf ++ ("; fileRef = ".data ++
        (fr ++ " /* ExportService.swift */; \x7d;".data))) := by
      unfold bfEntry bfDefHead
      rw [show " /* ExportService.swift in Sources */ = \x7bisa = PBXBuildFile; fileRef = ".data =
        " /* ExportService.swift in Sources */ = \x7bisa = PBXBuildFile".data ++
          "; fileRef = ".data from rfl]
      simp [List.append_assoc]
    have hin : pyIn (bfDefHead bf) (bfEntry bf fr) = true := by
      rw [hsplit]
      exact pyIn_append_left _ (pyIn_head _ _)
    unfold aesOut
    exact pyIn_append_left A (pyIn_append_left bfMark (pyIn_append_right _ hin))

/-- Witness for the amended claim C3 at a concrete four-anchor document. -/
theorem claim_C3_witness :
    countOcc svcHdr (aesDoc [] "\n".data "\n".data "\n".data "\n".data
      "z".data "q".data '\n' '\n' [] []) = 1 ∧
    (add_export_service frTok bfTok (aesDoc [] "\n".data "\n".data "\n".data "\n".data
        "z".data "q".data '\n' '\n' [] []) =
      ⟨0, some (aesOut frTok bfTok [] "\n".data "\n".data "\n".data "\n".data
        "z".data "q".data '\n' '\n' [] [])⟩ ∧
    pyIn (fileRefPtr frTok) (aesOut frTok bfTok [] "\n".data "\n".data "\n".data "\n".data
      "z".data "q".data '\n' '\n' [] []) = true ∧
    pyIn (frDefHead frTok) (aesOut frTok bfTok [] "\n".data "\n".data "\n".data "\n".data
      "z".data "q".data '\n' '\n' [] []) = true ∧
    pyIn (bfDefHead bfTok) (aesOut frTok bfTok [] "\n".data "\n".data "\n".data "\n".data
      "z".data "q".data '\n' '\n' [] []) = true) :=
  ⟨by decide,
    claim_C3_amended frTok bfTok [] "\n".data "\n".data "\n".data "\n".data
      "z".data "q".data '\n' '\n' [] []
      (by decide) (by decide) (by decide) (by decide)
      (by decide) (by decide) (by decide) (by decide)
      (by decide) (by decide) (by decide) (by decide)
      (by decide) (by decide) (by decide) (by decide)⟩

/-- Counterexample to claim C5 as stated: on `c1Doc` the `PBXBuildFile`
marker, the `PBXFileReference` marker and the `Sources` anchor are all
absent, the three secondary directives are skipped and the run still
completes with exit code 0 — but, contrary to the claim, no diagnostic
is surfaced: the console output is exactly the fixed three-line success
report, identical to the output of a run on a four-anchor document
where no directive was skipped; likewise `integrate_xcconfig.py` prints
the same fixed report whether or not its section anchors are present. -/
theorem claim_C5_cex :
    pyIn bfMark c1Doc = false ∧
    pyIn frBeginMark c1Doc = false ∧
    searchBlock srcHdr fiLit '\x7d' ')' c1Doc = none ∧
    (add_export_service frTok bfTok c1Doc).exitCode = 0 ∧
    aesStdout frTok bfTok c1Doc =
      ["Added ExportService.swift to Xcode project".data,
       "File Reference UUID: ".data ++ frTok,
       "Build File UUID: ".data ++ bfTok] ∧
    aesStdout frTok bfTok c1Doc =
      aesStdout frTok bfTok
        (aesDoc [] "\n".data "\n".data "\n".data "\n".data "z".data "q".data '\n' '\n' [] []) ∧
    intStdout [] = intStdout (aesDoc [] "\n".data "\n".data "\n".data "\n".data
      "z".data "q".data '\n' '\n' [] []) := by
  refine ⟨by decide, by decide, by decide, ?_, ?_, ?_, by decide⟩
  · simp only [aesRunF_eq]; decide
  · simp only [aesStdoutF_eq]; decide
  · simp only [aesStdoutF_eq]; decide

/-- Amended claim C5: a missing secondary anchor (the `PBXBuildFile`
marker, the `PBXFileReference` marker, the `Sources` block, or either
section of `integrate_xcconfig.py`) only skips its own directive: the
step is the identity on the document, the remaining directives still
run, and the process completes with exit code 0 and a final write.
Contrary to the claim, however, no diagnostic is surfaced for the
skipped directive: every non-fatal run of `add_export_service.py`
prints the same fixed three-line success report regardless of which
secondary directives were skipped, and `integrate_xcconfig.py` prints
the same fixed five-line report on every document. -/
theorem claim_C5_amended :
    (∀ bf fr c, pyIn bfMark c = false → aesStep2 bf fr c = c) ∧
    (∀ fr c, pyIn frBeginMark c = false → aesStep3 fr c = c) ∧
    (∀ bf c, searchBlock srcHdr fiLit '\x7d' ')' c = none → aesStep4 bf c = c) ∧
    (∀ fr bf c c1, aesStep1 fr c = some c1 →
      add_export_service fr bf c =
        ⟨0, some (aesStep4 bf (aesStep3 fr (aesStep2 bf fr c1)))⟩) ∧
    (∀ c, searchSection frBeginMark frEndMark c = none → intStep1 c = c) ∧
    (∀ c, searchSection grpBeginMark grpEndMark c = none → intStep2 c = c) ∧
    (∀ fr bf c c1, aesStep1 fr c = some c1 →
      aesStdout fr bf c =
        ["Added ExportService.swift to Xcode project".data,
         "File Reference UUID: ".data ++ fr,
         "Build File UUID: ".data ++ bf]) ∧
    (∀ c c' : List Char, intStdout c = intStdout c') := by
  refine ⟨?_, ?_, ?_, ?_, ?_, ?_, ?_, ?_⟩
  · intro bf fr c h
    unfold aesStep2
    simp [h]
  · intro fr c h
    unfold aesStep3
    simp [h]
  · intro bf c h
    unfold aesStep4
    rw [h]
  · intro fr bf c c1 h
    unfold add_export_service
    rw [h]
  · intro c h
    unfold intStep1
    rw [h]
  · intro c h
    unfold intStep2
    rw [h]
  · intro fr bf c c1 h
    unfold aesStdout
    rw [h]
  · intro c c'
    rfl

/-- Witness for the amended claim C5: on a document with only a
`Services` group, every secondary directive is skipped, yet the run
completes with exit code 0, writes the step-1 result, and prints the
fixed success report. -/
theorem claim_C5_witness :
    pyIn bfMark ((aesStep1 frTok c1Doc).getD []) = false ∧
    add_export_service frTok bfTok c1Doc = ⟨0, some ((aesStep1 frTok c1Doc).getD [])⟩ ∧
    aesStdout frTok bfTok c1Doc =
      ["Added ExportService.swift to Xcode project".data,
       "File Reference UUID: ".data ++ frTok,
       "Build File UUID: ".data ++ bfTok] := by
  refine ⟨?_, ?_, ?_⟩
  · rw [aesStep1F_eq]; decide
  · have h1 : aesStep1 frTok c1Doc = some ((aesStep1 frTok c1Doc).getD []) := by
      rw [aesStep1F_eq]; decide
    have h4 := (claim_C5_amended.2.2.2.1) frTok bfTok c1Doc _ h1
    rw [h4]
    have e2 := (claim_C5_amended.1) bfTok frTok ((aesStep1 frTok c1Doc).getD [])
      (by rw [aesStep1F_eq]; decide)
    have e3 := (claim_C5_amended.2.1) frTok ((aesStep1 frTok c1Doc).getD [])
      (by rw [aesStep1F_eq]; decide)
    have e4 := (claim_C5_amended.2.2.1) bfTok ((aesStep1 frTok c1Doc).getD [])
      (by rw [aesStep1F_eq]; decide)
    rw [e2, e3, e4]
  · have h1 : aesStep1 frTok c1Doc = some ((aesStep1 frTok c1Doc).getD []) := by
      rw [aesStep1F_eq]; decide
    exact (claim_C5_amended.2.2.2.2.2.2.1) frTok bfTok c1Doc _ h1

theorem SR_self {lit1 lit2 lit3 ins : List Char} (s : List Char)
    (h : countOcc lit1 s = 0) : subRoot3 lit1 lit2 lit3 ins s = s := by
  cases lit1 with
  | nil => rw [subRoot3.eq_1]
  | cons l ls =>
    induction s with
    | nil => rw [subRoot3.eq_2]
    | cons c rest ih =>
      have hp : (l :: ls).isPrefixOf (c :: rest) = false := by
        cases hc : (l :: ls).isPrefixOf (c :: rest) with
        | false => rfl
        | true => exfalso; simp [countOcc, hc] at h
      have htail : countOcc (l :: ls) rest = 0 := by
        simp only [countOcc, hp, Bool.false_eq_true, if_false] at h
        omega
      rw [SR_unfold_neg1 hp, ih htail]

theorem SR_skip {lit1 lit2 lit3 ins : List Char} (A R : List Char)
    (h : ∀ p, p < A.length → lit1.isPrefixOf ((A ++ R).drop p) = false) :
    subRoot3 lit1 lit2 lit3 ins (A ++ R) = A ++ subRoot3 lit1 lit2 lit3 ins R := by
  cases lit1 with
  | nil => rw [subRoot3.eq_1, subRoot3.eq_1]
  | cons l ls =>
    induction A with
    | nil => simp
    | cons a A' ih =>
      have h0 : (l :: ls).isPrefixOf (a :: (A' ++ R)) = false := by
        have := h 0 (by simp)
        simpa using this
      have hrest : ∀ p, p < A'.length → (l :: ls).isPrefixOf ((A' ++ R).drop p) = false := by
        intro p hp
        have := h (p + 1) (by simp; omega)
        simpa using this
      simp only [List.cons_append]
      rw [SR_unfold_neg1 h0, ih hrest]

theorem SR_match {l : Char} {ls : List Char} {m : Char} {ms : List Char}
    {n : Char} {ns : List Char} (ins u1 u2 u3 R : List Char) (b : Char)
    (h1 : ∀ c ∈ u1, pyIsSpace c = true) (h2 : ∀ c ∈ u2, pyIsSpace c = true)
    (h3 : ∀ c ∈ u3, pyIsSpace c = true)
    (hm : pyIsSpace m = false) (hn : pyIsSpace n = false) (hb : pyIsSpace b = false) :
    subRoot3 (l :: ls) (m :: ms) (n :: ns) ins
        ((l :: ls) ++ (u1 ++ ((m :: ms) ++ (u2 ++ ((n :: ns) ++ (u3 ++ (b :: R))))))) =
      (l :: ls) ++ (u1 ++ ((m :: ms) ++ (u2 ++ ((n :: ns) ++ (u3 ++ (ins ++
        subRoot3 (l :: ls) (m :: ms) (n :: ns) ins (b :: R))))))) := by
  have hshape : (l :: ls) ++ (u1 ++ ((m :: ms) ++ (u2 ++ ((n :: ns) ++ (u3 ++ (b :: R)))))) =
      l :: (ls ++ (u1 ++ ((m :: ms) ++ (u2 ++ ((n :: ns) ++ (u3 ++ (b :: R))))))) := by
    simp
  have ht : u1 ++ ((m :: ms) ++ (u2 ++ ((n :: ns) ++ (u3 ++ (b :: R))))) =
      (ls ++ (u1 ++ ((m :: ms) ++ (u2 ++ ((n :: ns) ++ (u3 ++ (b :: R))))))).drop ls.length :=
    (List.drop_left _ _).symm
  have htw1 : u1 =
      (u1 ++ ((m :: ms) ++ (u2 ++ ((n :: ns) ++ (u3 ++ (b :: R)))))).takeWhile pyIsSpace := by
    rw [twAppendAll _ h1]
    simp only [List.cons_append]
    rw [twConsFalse _ hm, List.append_nil]
  have hu1 : (m :: ms) ++ (u2 ++ ((n :: ns) ++ (u3 ++ (b :: R)))) =
      (u1 ++ ((m :: ms) ++ (u2 ++ ((n :: ns) ++ (u3 ++ (b :: R)))))).drop u1.length :=
    (List.drop_left _ _).symm
  have hpfx1 : (l :: ls).isPrefixOf
      (l :: (ls ++ (u1 ++ ((m :: ms) ++ (u2 ++ ((n :: ns) ++ (u3 ++ (b :: R)))))))) = true := by
    have h0 := pfx_append_self (l :: ls) (u1 ++ ((m :: ms) ++ (u2 ++ ((n :: ns) ++ (u3 ++ (b :: R))))))
    simp only [List.cons_append] at h0
    exact h0
  have hpfx2 : (m :: ms).isPrefixOf
      ((m :: ms) ++ (u2 ++ ((n :: ns) ++ (u3 ++ (b :: R))))) = true :=
    pfx_append_self _ _
  have ht2 : u2 ++ ((n :: ns) ++ (u3 ++ (b :: R))) =
      ((m :: ms) ++ (u2 ++ ((n :: ns) ++ (u3 ++ (b :: R))))).drop (m :: ms).length :=
    (List.drop_left _ _).symm
  have htw2 : u2 = (u2 ++ ((n :: ns) ++ (u3 ++ (b :: R)))).takeWhile pyIsSpace := by
    rw [twAppendAll _ h2]
    simp only [List.cons_append]
    rw [twConsFalse _ hn, List.append_nil]
  have hu2 : (n :: ns) ++ (u3 ++ (b :: R)) =
      (u2 ++ ((n :: ns) ++ (u3 ++ (b :: R)))).drop u2.length :=
    (List.drop_left _ _).symm
  have hpfx3 : (n :: ns).isPrefixOf ((n :: ns) ++ (u3 ++ (b :: R))) = true :=
    pfx_append_self _ _
  have ht3 : u3 ++ (b :: R) =
      ((n :: ns) ++ (u3 ++ (b :: R))).drop (n :: ns).length :=
    (List.drop_left _ _).symm
  have htw3 : u3 = (u3 ++ (b :: R)).takeWhile pyIsSpace := by
    rw [twAppendAll _ h3, twConsFalse _ hb, List.append_nil]
  rw [hshape, SR_unfold_pos ht htw1 hu1 hpfx1 hpfx2 ht2 htw2 hu2 hpfx3 ht3 htw3]
  rw [List.drop_left]
  simp [List.append_assoc]

theorem SR_single {l : Char} {ls : List Char} {m : Char} {ms : List Char}
    {n : Char} {ns : List Char} (ins A u1 u2 u3 R : List Char) (b : Char)
    (hw1 : ∀ c ∈ u1, pyIsSpace c = true) (hw2 : ∀ c ∈ u2, pyIsSpace c = true)
    (hw3 : ∀ c ∈ u3, pyIsSpace c = true)
    (hm : pyIsSpace m = false) (hn : pyIsSpace n = false) (hb : pyIsSpace b = false)
    (hcnt : countOcc (l :: ls) (A ++ ((l :: ls) ++ (u1 ++ ((m :: ms) ++
      (u2 ++ ((n :: ns) ++ (u3 ++ (b :: R)))))))) = 1) :
    subRoot3 (l :: ls) (m :: ms) (n :: ns) ins
        (A ++ ((l :: ls) ++ (u1 ++ ((m :: ms) ++ (u2 ++ ((n :: ns) ++ (u3 ++ (b :: R)))))))) =
      A ++ ((l :: ls) ++ (u1 ++ ((m :: ms) ++ (u2 ++ ((n :: ns) ++ (u3 ++ (ins ++ (b :: R)))))))) := by
  have hne : (l :: ls) ≠ ([] : List Char) := by simp
  have hAt : (l :: ls).isPrefixOf
      ((A ++ ((l :: ls) ++ (u1 ++ ((m :: ms) ++ (u2 ++ ((n :: ns) ++ (u3 ++ (b :: R)))))))).drop
        A.length) = true := by
    rw [List.drop_left]
    exact pfx_append_self _ _
  have hskip : ∀ p, p < A.length →
      (l :: ls).isPrefixOf
        ((A ++ ((l :: ls) ++ (u1 ++ ((m :: ms) ++ (u2 ++ ((n :: ns) ++ (u3 ++ (b :: R)))))))).drop
          p) = false := by
    intro p hp
    exact countOcc_unique hne hcnt hAt p (by omega)
  have hR : countOcc (l :: ls) (b :: R) = 0 := by
    refine countOcc_eq_zero ?_
    intro q
    cases hc : (l :: ls).isPrefixOf ((b :: R).drop q) with
    | false => rfl
    | true =>
      exfalso
      have hlift : (l :: ls).isPrefixOf
          ((A ++ ((l :: ls) ++ (u1 ++ ((m :: ms) ++ (u2 ++ ((n :: ns) ++ (u3 ++ (b :: R)))))))).drop
            (A.length + ((l :: ls).length + (u1.length + ((m :: ms).length +
              (u2.length + ((n :: ns).length + (u3.length + q)))))))) = true :=
        occAt_cat A (occAt_cat (l :: ls) (occAt_cat u1 (occAt_cat (m :: ms)
          (occAt_cat u2 (occAt_cat (n :: ns) (occAt_cat u3 hc))))))
      have hfalse := countOcc_unique hne hcnt hAt
        (A.length + ((l :: ls).length + (u1.length + ((m :: ms).length +
          (u2.length + ((n :: ns).length + (u3.length + q)))))))
        (by simp only [List.length_cons]; omega)
      rw [hlift] at hfalse
      simp at hfalse
  rw [SR_skip A _ hskip, SR_match ins u1 u2 u3 R b hw1 hw2 hw3 hm hn hb, SR_self (b :: R) hR]

theorem SR_single2 (lit1 lit2 lit3 ins A u1 u2 u3 R : List Char) (b : Char)
    (h1 : lit1 ≠ [])
    (hm : ∃ m ms, lit2 = m :: ms ∧ pyIsSpace m = false)
    (hn : ∃ n ns, lit3 = n :: ns ∧ pyIsSpace n = false)
    (hw1 : ∀ c ∈ u1, pyIsSpace c = true) (hw2 : ∀ c ∈ u2, pyIsSpace c = true)
    (hw3 : ∀ c ∈ u3, pyIsSpace c = true) (hb : pyIsSpace b = false)
    (hcnt : countOcc lit1 (A ++ (lit1 ++ (u1 ++ (lit2 ++ (u2 ++ (lit3 ++
      (u3 ++ (b :: R)))))))) = 1) :
    subRoot3 lit1 lit2 lit3 ins
        (A ++ (lit1 ++ (u1 ++ (lit2 ++ (u2 ++ (lit3 ++ (u3 ++ (b :: R)))))))) =
      A ++ (lit1 ++ (u1 ++ (lit2 ++ (u2 ++ (lit3 ++ (u3 ++ (ins ++ (b :: R)))))))) := by
  obtain ⟨l, ls, rfl⟩ := List.exists_cons_of_ne_nil h1
  obtain ⟨m, ms, rfl, hm0⟩ := hm
  obtain ⟨n, ns, rfl, hn0⟩ := hn
  exact SR_single ins A u1 u2 u3 R b hw1 hw2 hw3 hm0 hn0 hb hcnt

/-- The Debug and Release build-configuration blocks of the realistic
document family, each lacking a base-configuration reference (`w1`,
`w2` are the whitespace runs between each opening brace and its `isa`
line). -/
def cfgBlocks (M3 Q w1 w2 : List Char) : List Char :=
  dbgCfgLit ++ (w1 ++ (xcIsaLit ++ (M3 ++ (relCfgLit ++ (w2 ++ (xcIsaLit ++ Q))))))

/-- The two blocks after step 3: exactly one base-configuration line in
each, the Debug block pointing at `A10000F1000`, the Release block at
`A10000F2000`. -/
def cfgBlocksOut (M3 Q w1 w2 : List Char) : List Char :=
  dbgCfgLit ++ (w1 ++ (xcIsaLit ++ (insD ++ (M3 ++ (relCfgLit ++ (w2 ++
    (xcIsaLit ++ (insR ++ Q))))))))

/-- The root group entry `A10000A0000` of the `PBXGroup` section, with
whitespace runs `u1 u2 u3` and first child text starting at the
non-space character `b`. -/
def rootGrp (u1 u2 u3 : List Char) (b : Char) (G1 : List Char) : List Char :=
  rootLit1 ++ (u1 ++ (rootLit2 ++ (u2 ++ (chLit ++ (u3 ++ (b :: G1))))))

/-- The root group after step 2 splices the `Config` child into its
`children` list. -/
def rootGrpOut (u1 u2 u3 : List Char) (b : Char) (G1 : List Char) : List Char :=
  rootLit1 ++ (u1 ++ (rootLit2 ++ (u2 ++ (chLit ++ (u3 ++ (rootIns ++ (b :: G1)))))))

/-- A document with the layout of a real project descriptor as
`integrate_xcconfig.py` expects it: a `PBXFileReference` section with
body `F`, a `PBXGroup` section holding the root group `A10000A0000`,
and the Debug and Release build-configuration blocks. -/
def intDoc (P F M0 G0 u1 u2 u3 G1 M2 M3 Q w1 w2 : List Char) (b : Char) : List Char :=
  P ++ (frBeginMark ++ (F ++ (frEndMark ++ (M0 ++ (grpBeginMark ++ (G0 ++
    (rootGrp u1 u2 u3 b G1 ++ (grpEndMark ++ (M2 ++ cfgBlocks M3 Q w1 w2)))))))))

/-- `intDoc` after step 1 adds the two xcconfig file references before
the section-end marker. -/
def intDoc1 (P F M0 G0 u1 u2 u3 G1 M2 M3 Q w1 w2 : List Char) (b : Char) : List Char :=
  P ++ (frBeginMark ++ (F ++ (newRefs ++ (frEndMark ++ (M0 ++ (grpBeginMark ++ (G0 ++
    (rootGrp u1 u2 u3 b G1 ++ (grpEndMark ++ (M2 ++ cfgBlocks M3 Q w1 w2))))))))))

/-- `intDoc1` after step 2 adds the `Config` group before the group
section end (the root-group substitution not yet applied). -/
def intDoc2 (P F M0 G0 u1 u2 u3 G1 M2 M3 Q w1 w2 : List Char) (b : Char) : List Char :=
  P ++ (frBeginMark ++ (F ++ (newRefs ++ (frEndMark ++ (M0 ++ (grpBeginMark ++ (G0 ++
    (rootGrp u1 u2 u3 b G1 ++ (cfgGroupTxt ++ (grpEndMark ++ (M2 ++
      cfgBlocks M3 Q w1 w2)))))))))))

/-- Step 2's full output: the `Config` child also spliced into the root
group's `children`. -/
def intDoc3 (P F M0 G0 u1 u2 u3 G1 M2 M3 Q w1 w2 : List Char) (b : Char) : List Char :=
  P ++ (frBeginMark ++ (F ++ (newRefs ++ (frEndMark ++ (M0 ++ (grpBeginMark ++ (G0 ++
    (rootGrpOut u1 u2 u3 b G1 ++ (cfgGroupTxt ++ (grpEndMark ++ (M2 ++
      cfgBlocks M3 Q w1 w2)))))))))))

/-- `intDoc3` after the Debug base-configuration insertion. -/
def intDoc4 (P F M0 G0 u1 u2 u3 G1 M2 M3 Q w1 w2 : List Char) (b : Char) : List Char :=
  P ++ (frBeginMark ++ (F ++ (newRefs ++ (frEndMark ++ (M0 ++ (grpBeginMark ++ (G0 ++
    (rootGrpOut u1 u2 u3 b G1 ++ (cfgGroupTxt ++ (grpEndMark ++ (M2 ++
      (dbgCfgLit ++ (w1 ++ (xcIsaLit ++ (insD ++ (M3 ++ (relCfgLit ++ (w2 ++
        (xcIsaLit ++ Q)))))))))))))))))))

/-- The full output of `integrate_xcconfig.py` on `intDoc`. -/
def intOut (P F M0 G0 u1 u2 u3 G1 M2 M3 Q w1 w2 : List Char) (b : Char) : List Char :=
  P ++ (frBeginMark ++ (F ++ (newRefs ++ (frEndMark ++ (M0 ++ (grpBeginMark ++ (G0 ++
    (rootGrpOut u1 u2 u3 b G1 ++ (cfgGroupTxt ++ (grpEndMark ++ (M2 ++
      cfgBlocksOut M3 Q w1 w2)))))))))))

/-- Claim C7: on every document with the layout of a real project
descriptor — a `PBXFileReference` section whose body `F` does not yet
list `Debug.xcconfig`, a `PBXGroup` section holding the root group
`A10000A0000` and not yet holding the `Config` group, and both the
Debug (`A1000180000`) and Release (`A1000190000`) build-configuration
blocks, each lacking a base-configuration reference and each block
pattern matching exactly once at its stage of the run —
`integrate_xcconfig.py` adds exactly one `baseConfigurationReference`
line to each block, the Debug block pointing at
`A10000F1000 /* Debug.xcconfig */` and the Release block at
`A10000F2000 /* Release.xcconfig */`: the output is exactly `intOut`,
which contains each insertion once. -/
theorem claim_C7 (P F M0 G0 u1 u2 u3 G1 M2 M3 Q w1 w2 : List Char) (b : Char)
    (hfrB : countOcc frBeginMark (intDoc P F M0 G0 u1 u2 u3 G1 M2 M3 Q w1 w2 b) = 1)
    (hfrE : countOcc frEndMark (intDoc P F M0 G0 u1 u2 u3 G1 M2 M3 Q w1 w2 b) = 1)
    (hnoDbg : pyIn dbgXcName F = false)
    (hgrpB : countOcc grpBeginMark (intDoc1 P F M0 G0 u1 u2 u3 G1 M2 M3 Q w1 w2 b) = 1)
    (hgrpE : countOcc grpEndMark (intDoc1 P F M0 G0 u1 u2 u3 G1 M2 M3 Q w1 w2 b) = 1)
    (hnoCfg : pyIn cfgGroupId (G0 ++ rootGrp u1 u2 u3 b G1) = false)
    (hroot : countOcc rootLit1 (intDoc2 P F M0 G0 u1 u2 u3 G1 M2 M3 Q w1 w2 b) = 1)
    (hu1 : ∀ c ∈ u1, pyIsSpace c = true) (hu2 : ∀ c ∈ u2, pyIsSpace c = true)
    (hu3 : ∀ c ∈ u3, pyIsSpace c = true) (hb : pyIsSpace b = false)
    (hdbg : countOcc dbgCfgLit (intDoc3 P F M0 G0 u1 u2 u3 G1 M2 M3 Q w1 w2 b) = 1)
    (hw1 : ∀ c ∈ w1, pyIsSpace c = true) (hw2 : ∀ c ∈ w2, pyIsSpace c = true)
    (hrel : countOcc relCfgLit (intDoc4 P F M0 G0 u1 u2 u3 G1 M2 M3 Q w1 w2 b) = 1) :
    integrate_xcconfig (intDoc P F M0 G0 u1 u2 u3 G1 M2 M3 Q w1 w2 b) =
      intOut P F M0 G0 u1 u2 u3 G1 M2 M3 Q w1 w2 b ∧
    pyIn "baseConfigurationReference = A10000F1000 /* Debug.xcconfig */;".data
      (intOut P F M0 G0 u1 u2 u3 G1 M2 M3 Q w1 w2 b) = true ∧
    pyIn "baseConfigurationReference = A10000F2000 /* Release.xcconfig */;".data
      (intOut P F M0 G0 u1 u2 u3 G1 M2 M3 Q w1 w2 b) = true := by
  -- step 1: the file-reference section search and insertion
  have hs1 : searchSection frBeginMark frEndMark
      (intDoc P F M0 G0 u1 u2 u3 G1 M2 M3 Q w1 w2 b) = some F := by
    unfold intDoc at hfrB hfrE ⊢
    exact SS_found P F _ frBeginMark frEndMark (by decide) (by decide) hfrB hfrE
  have e1 : intStep1 (intDoc P F M0 G0 u1 u2 u3 G1 M2 M3 Q w1 w2 b) =
      intDoc1 P F M0 G0 u1 u2 u3 G1 M2 M3 Q w1 w2 b := by
    unfold intStep1
    rw [hs1]
    show (if pyIn dbgXcName F then intDoc P F M0 G0 u1 u2 u3 G1 M2 M3 Q w1 w2 b
        else replaceAll frEndMark (newRefs ++ frEndMark)
          (intDoc P F M0 G0 u1 u2 u3 G1 M2 M3 Q w1 w2 b)) =
      intDoc1 P F M0 G0 u1 u2 u3 G1 M2 M3 Q w1 w2 b
    simp only [hnoDbg, Bool.false_eq_true, if_false]
    have hd2 : intDoc P F M0 G0 u1 u2 u3 G1 M2 M3 Q w1 w2 b =
        (P ++ (frBeginMark ++ F)) ++ frEndMark ++ (M0 ++ (grpBeginMark ++ (G0 ++
          (rootGrp u1 u2 u3 b G1 ++ (grpEndMark ++ (M2 ++ cfgBlocks M3 Q w1 w2)))))) := by
      unfold intDoc
      simp [List.append_assoc]
    have hfrE' : countOcc frEndMark ((P ++ (frBeginMark ++ F)) ++ frEndMark ++
        (M0 ++ (grpBeginMark ++ (G0 ++ (rootGrp u1 u2 u3 b G1 ++
          (grpEndMark ++ (M2 ++ cfgBlocks M3 Q w1 w2))))))) = 1 := by
      rw [← hd2]
      exact hfrE
    rw [hd2, RA_single (newRefs ++ frEndMark) _ _ (by decide) hfrE']
    unfold intDoc1
    simp [List.append_assoc]
  -- step 2: the group section search, the Config group text, the root splice
  have hs2 : searchSection grpBeginMark grpEndMark
      (intDoc1 P F M0 G0 u1 u2 u3 G1 M2 M3 Q w1 w2 b) =
      some (G0 ++ rootGrp u1 u2 u3 b G1) := by
    have hd3 : intDoc1 P F M0 G0 u1 u2 u3 G1 M2 M3 Q w1 w2 b =
        (P ++ (frBeginMark ++ (F ++ (newRefs ++ (frEndMark ++ M0))))) ++
          (grpBeginMark ++ ((G0 ++ rootGrp u1 u2 u3 b G1) ++
            (grpEndMark ++ (M2 ++ cfgBlocks M3 Q w1 w2)))) := by
      unfold intDoc1
      simp [List.append_assoc]
    have hgB' : countOcc grpBeginMark ((P ++ (frBeginMark ++ (F ++ (newRefs ++
        (frEndMark ++ M0))))) ++ (grpBeginMark ++ ((G0 ++ rootGrp u1 u2 u3 b G1) ++
          (grpEndMark ++ (M2 ++ cfgBlocks M3 Q w1 w2))))) = 1 := by
      rw [← hd3]
      exact hgrpB
    have hgE' : countOcc grpEndMark ((P ++ (frBeginMark ++ (F ++ (newRefs ++
        (frEndMark ++ M0))))) ++ (grpBeginMark ++ ((G0 ++ rootGrp u1 u2 u3 b G1) ++
          (grpEndMark ++ (M2 ++ cfgBlocks M3 Q w1 w2))))) = 1 := by
      rw [← hd3]
      exact hgrpE
    rw [hd3]
    exact SS_found _ _ _ grpBeginMark grpEndMark (by decide) (by decide) hgB' hgE'
  have e2 : intStep2 (intDoc1 P F M0 G0 u1 u2 u3 G1 M2 M3 Q w1 w2 b) =
      intDoc3 P F M0 G0 u1 u2 u3 G1 M2 M3 Q w1 w2 b := by
    unfold intStep2
    rw [hs2]
    show (if pyIn cfgGroupId (G0 ++ rootGrp u1 u2 u3 b G1) then
        intDoc1 P F M0 G0 u1 u2 u3 G1 M2 M3 Q w1 w2 b
      else subRoot3 rootLit1 rootLit2 chLit rootIns
        (replaceAll grpEndMark (cfgGroupTxt ++ grpEndMark)
          (intDoc1 P F M0 G0 u1 u2 u3 G1 M2 M3 Q w1 w2 b))) =
      intDoc3 P F M0 G0 u1 u2 u3 G1 M2 M3 Q w1 w2 b
    simp only [hnoCfg, Bool.false_eq_true, if_false]
    have hd4 : intDoc1 P F M0 G0 u1 u2 u3 G1 M2 M3 Q w1 w2 b =
        (P ++ (frBeginMark ++ (F ++ (newRefs ++ (frEndMark ++ (M0 ++ (grpBeginMark ++
          (G0 ++ rootGrp u1 u2 u3 b G1)))))))) ++ grpEndMark ++
          (M2 ++ cfgBlocks M3 Q w1 w2) := by
      unfold intDoc1
      simp [List.append_assoc]
    have hgE2 : countOcc grpEndMark ((P ++ (frBeginMark ++ (F ++ (newRefs ++
        (frEndMark ++ (M0 ++ (grpBeginMark ++ (G0 ++ rootGrp u1 u2 u3 b G1)))))))) ++
          grpEndMark ++ (M2 ++ cfgBlocks M3 Q w1 w2)) = 1 := by
      rw [← hd4]
      exact hgrpE
    rw [hd4, RA_single (cfgGroupTxt ++ grpEndMark) _ _ (by decide) hgE2]
    have hd5 : (P ++ (frBeginMark ++ (F ++ (newRefs ++ (frEndMark ++ (M0 ++
          (grpBeginMark ++ (G0 ++ rootGrp u1 u2 u3 b G1)))))))) ++
          (cfgGroupTxt ++ grpEndMark) ++ (M2 ++ cfgBlocks M3 Q w1 w2) =
        (P ++ (frBeginMark ++ (F ++ (newRefs ++ (frEndMark ++ (M0 ++
          (grpBeginMark ++ G0))))))) ++
          (rootLit1 ++ (u1 ++ (rootLit2 ++ (u2 ++ (chLit ++ (u3 ++ (b ::
            (G1 ++ (cfgGroupTxt ++ (grpEndMark ++ (M2 ++ cfgBlocks M3 Q w1 w2))))))))))) := by
      unfold rootGrp
      simp [List.append_assoc]
    have hd4b : intDoc2 P F M0 G0 u1 u2 u3 G1 M2 M3 Q w1 w2 b =
        (P ++ (frBeginMark ++ (F ++ (newRefs ++ (frEndMark ++ (M0 ++
          (grpBeginMark ++ (G0 ++ rootGrp u1 u2 u3 b G1)))))))) ++
          (cfgGroupTxt ++ grpEndMark) ++ (M2 ++ cfgBlocks M3 Q w1 w2) := by
      unfold intDoc2
      simp [List.append_assoc]
    have hroot' : countOcc rootLit1 ((P ++ (frBeginMark ++ (F ++ (newRefs ++
        (frEndMark ++ (M0 ++ (grpBeginMark ++ G0))))))) ++
          (rootLit1 ++ (u1 ++ (rootLit2 ++ (u2 ++ (chLit ++ (u3 ++ (b ::
            (G1 ++ (cfgGroupTxt ++ (grpEndMark ++ (M2 ++ cfgBlocks M3 Q w1 w2)))))))))))) = 1 := by
      rw [← hd5, ← hd4b]
      exact hroot
    rw [hd5, SR_single2 rootLit1 rootLit2 chLit rootIns _ u1 u2 u3 _ b (by decide)
      ⟨'i', "sa = PBXGroup;".data, by decide, by decide⟩
      ⟨'c', "hildren = (".data, by decide, by decide⟩ hu1 hu2 hu3 hb hroot']
    unfold intDoc3 rootGrpOut
    simp [List.append_assoc]
  -- step 3a: the Debug base-configuration insertion
  have e3 : intStep3d (intDoc3 P F M0 G0 u1 u2 u3 G1 M2 M3 Q w1 w2 b) =
      intDoc4 P F M0 G0 u1 u2 u3 G1 M2 M3 Q w1 w2 b := by
    unfold intStep3d
    have hd6 : intDoc3 P F M0 G0 u1 u2 u3 G1 M2 M3 Q w1 w2 b =
        (P ++ (frBeginMark ++ (F ++ (newRefs ++ (frEndMark ++ (M0 ++ (grpBeginMark ++
          (G0 ++ (rootGrpOut u1 u2 u3 b G1 ++ (cfgGroupTxt ++ (grpEndMark ++ M2))))))))))) ++
          (dbgCfgLit ++ (w1 ++ (xcIsaLit ++ (M3 ++ (relCfgLit ++ (w2 ++
            (xcIsaLit ++ Q))))))) := by
      unfold intDoc3 cfgBlocks
      simp [List.append_assoc]
    have hdbg' : countOcc dbgCfgLit ((P ++ (frBeginMark ++ (F ++ (newRefs ++
        (frEndMark ++ (M0 ++ (grpBeginMark ++ (G0 ++ (rootGrpOut u1 u2 u3 b G1 ++
          (cfgGroupTxt ++ (grpEndMark ++ M2))))))))))) ++
          (dbgCfgLit ++ (w1 ++ (xcIsaLit ++ (M3 ++ (relCfgLit ++ (w2 ++
            (xcIsaLit ++ Q)))))))) = 1 := by
      rw [← hd6]
      exact hdbg
    rw [hd6, SC_single2 dbgCfgLit xcIsaLit insD _ w1 _ (by decide) hw1
      ⟨'i', "sa = XCBuildConfiguration;".data, by decide, by decide⟩ hdbg']
    unfold intDoc4
    simp [List.append_assoc]
  -- step 3b: the Release base-configuration insertion
  have e4 : intStep3r (intDoc4 P F M0 G0 u1 u2 u3 G1 M2 M3 Q w1 w2 b) =
      intOut P F M0 G0 u1 u2 u3 G1 M2 M3 Q w1 w2 b := by
    unfold intStep3r
    have hd7 : intDoc4 P F M0 G0 u1 u2 u3 G1 M2 M3 Q w1 w2 b =
        (P ++ (frBeginMark ++ (F ++ (newRefs ++ (frEndMark ++ (M0 ++ (grpBeginMark ++
          (G0 ++ (rootGrpOut u1 u2 u3 b G1 ++ (cfgGroupTxt ++ (grpEndMark ++ (M2 ++
            (dbgCfgLit ++ (w1 ++ (xcIsaLit ++ (insD ++ M3)))))))))))))))) ++
          (relCfgLit ++ (w2 ++ (xcIsaLit ++ Q))) := by
      unfold intDoc4
      simp [List.append_assoc]
    have hrel' : countOcc relCfgLit ((P ++ (frBeginMark ++ (F ++ (newRefs ++
        (frEndMark ++ (M0 ++ (grpBeginMark ++ (G0 ++ (rootGrpOut u1 u2 u3 b G1 ++
          (cfgGroupTxt ++ (grpEndMark ++ (M2 ++ (dbgCfgLit ++ (w1 ++ (xcIsaLit ++
            (insD ++ M3)))))))))))))))) ++
          (relCfgLit ++ (w2 ++ (xcIsaLit ++ Q)))) = 1 := by
      rw [← hd7]
      exact hrel
    rw [hd7, SC_single2 relCfgLit xcIsaLit insR _ w2 _ (by decide) hw2
      ⟨'i', "sa = XCBuildConfiguration;".data, by decide, by decide⟩ hrel']
    unfold intOut cfgBlocksOut
    simp [List.append_assoc]
  refine ⟨?_, ?_, ?_⟩
  · unfold integrate_xcconfig
    rw [e1, e2, e3, e4]
  · have h0 : pyIn "baseConfigurationReference = A10000F1000 /* Debug.xcconfig */;".data
        insD = true := by decide
    unfold intOut cfgBlocksOut
    exact pyIn_append_left P (pyIn_append_left frBeginMark (pyIn_append_left F
      (pyIn_append_left newRefs (pyIn_append_left frEndMark (pyIn_append_left M0
        (pyIn_append_left grpBeginMark (pyIn_append_left G0
          (pyIn_append_left (rootGrpOut u1 u2 u3 b G1) (pyIn_append_left cfgGroupTxt
            (pyIn_append_left grpEndMark (pyIn_append_left M2
              (pyIn_append_left dbgCfgLit (pyIn_append_left w1 (pyIn_append_left xcIsaLit
                (pyIn_append_right _ h0)))))))))))))))
  · have h0 : pyIn "baseConfigurationReference = A10000F2000 /* Release.xcconfig */;".data
        insR = true := by decide
    unfold intOut cfgBlocksOut
    exact pyIn_append_left P (pyIn_append_left frBeginMark (pyIn_append_left F
      (pyIn_append_left newRefs (pyIn_append_left frEndMark (pyIn_append_left M0
        (pyIn_append_left grpBeginMark (pyIn_append_left G0
          (pyIn_append_left (rootGrpOut u1 u2 u3 b G1) (pyIn_append_left cfgGroupTxt
            (pyIn_append_left grpEndMark (pyIn_append_left M2
              (pyIn_append_left dbgCfgLit (pyIn_append_left w1 (pyIn_append_left xcIsaLit
                (pyIn_append_left insD (pyIn_append_left M3 (pyIn_append_left relCfgLit
                  (pyIn_append_left w2 (pyIn_append_left xcIsaLit
                    (pyIn_append_right Q h0))))))))))))))))))))

/-- Witness for claim C7 at a concrete document with the full realistic
layout: file-reference section, group section with root group, and both
configuration blocks. -/
theorem claim_C7_witness :
    countOcc dbgCfgLit (intDoc3 "p".data " f ".data "\n".data " g ".data "\n".data
      "\n".data "\n".data "\n".data "\n".data "\n".data "q".data "\n".data "\n".data 'x') = 1 ∧
    (integrate_xcconfig (intDoc "p".data " f ".data "\n".data " g ".data "\n".data
        "\n".data "\n".data "\n".data "\n".data "\n".data "q".data "\n".data "\n".data 'x') =
      intOut "p".data " f ".data "\n".data " g ".data "\n".data
        "\n".data "\n".data "\n".data "\n".data "\n".data "q".data "\n".data "\n".data 'x' ∧
    pyIn "baseConfigurationReference = A10000F1000 /* Debug.xcconfig */;".data
      (intOut "p".data " f ".data "\n".data " g ".data "\n".data
        "\n".data "\n".data "\n".data "\n".data "\n".data "q".data "\n".data "\n".data 'x') = true ∧
    pyIn "baseConfigurationReference = A10000F2000 /* Release.xcconfig */;".data
      (intOut "p".data " f ".data "\n".data " g ".data "\n".data
        "\n".data "\n".data "\n".data "\n".data "\n".data "q".data "\n".data "\n".data 'x') = true) :=
  ⟨by decide,
    claim_C7 "p".data " f ".data "\n".data " g ".data "\n".data
      "\n".data "\n".data "\n".data "\n".data "\n".data "q".data "\n".data "\n".data 'x'
      (by decide) (by decide) (by decide) (by decide) (by decide)
      (by decide) (by decide) (by decide) (by decide) (by decide)
      (by decide) (by decide) (by decide) (by decide) (by decide)⟩
